import Mathlib

set_option maxHeartbeats 1000000

/-!
Verification of the saf-editor agent-tool core: the workspace tree model
(`FileNode`), path resolution, the mutating workspace tools, the tool
registry with parameter validation, the package-installation state, and the
asynchronous execution channel of `execute_python`.  Every definition is a
shallow embedding of the corresponding TypeScript function; machine-level
JavaScript behaviours (string `split`/`replace`/`includes`, truthiness of
`""`, `Set` membership, `Date.now()` timing, `setTimeout` timers and
`addEventListener` dispatch) are modelled explicitly.
-/

/- ### JavaScript string primitives, modelled over character lists -/

/-- JS `s.split(sep)` for a one-character separator: accumulator-based scan.
`acc` holds the current segment, reversed. -/
def splitCharAux (sep : Char) : List Char → List Char → List String
  | [], acc => [String.mk acc.reverse]
  | c :: cs, acc =>
    if c = sep then String.mk acc.reverse :: splitCharAux sep cs []
    else splitCharAux sep cs (c :: acc)

/-- JS `s.split(sep)` for a one-character separator. -/
def splitChar (sep : Char) (s : String) : List String :=
  splitCharAux sep s.data []

/-- `path.split("/").filter(part => part.length > 0)`, shared by every tool. -/
def pathParts (p : String) : List String :=
  (splitChar '/' p).filter (fun s => s ≠ "")

/-- Is `pat` a prefix of `l`?  (Bool-valued, for JS-style scanning.) -/
def isPrefixL : List Char → List Char → Bool
  | [], _ => true
  | _ :: _, [] => false
  | p :: ps, c :: cs => p = c && isPrefixL ps cs

/-- JS `haystack.includes(pat)`: does `pat` occur as a contiguous substring? -/
def occursL (pat : List Char) : List Char → Bool
  | [] => isPrefixL pat []
  | c :: cs => isPrefixL pat (c :: cs) || occursL pat cs

/-- JS `haystack.includes(pat)` on strings. -/
def strIncludes (haystack pat : String) : Bool :=
  occursL pat.data haystack.data

/-- `GetSubstitution` of `String.prototype.replace` for a string search
value (no capture groups): scanning the replacement left to right, `$$`
yields a literal dollar, `$&` the matched text, a dollar followed by a
backquote (code 96) the text before the match, `$'` (dollar, code 39) the
text after the match; any other dollar — including `$n` with no captures
and `$<` with no named captures — stays literal.  `matched` is the search
string, `pre`/`post` the text around the match. -/
def getSubstitution (matched pre post : List Char) : List Char → List Char
  | [] => []
  | c :: cs =>
    if c = '$' then
      match cs with
      | [] => ['$']
      | d :: ds =>
        if d = '$' then '$' :: getSubstitution matched pre post ds
        else if d = '&' then matched ++ getSubstitution matched pre post ds
        else if d = Char.ofNat 96 then pre ++ getSubstitution matched pre post ds
        else if d = Char.ofNat 39 then post ++ getSubstitution matched pre post ds
        else '$' :: getSubstitution matched pre post (d :: ds)
    else c :: getSubstitution matched pre post cs

/-- JS `s.replace(pat, repl)` with a string pattern: replace the first
occurrence only, applying `GetSubstitution` to the replacement; if `pat`
does not occur, the string is unchanged.  `seen` is the reversed text
already scanned past (the eventual `` $` `` portion). -/
def replaceFirstSubAux (pat repl : List Char) : List Char → List Char → List Char
  | seen, [] => if isPrefixL pat [] then getSubstitution pat seen.reverse [] repl else []
  | seen, c :: cs =>
    if isPrefixL pat (c :: cs) then
      getSubstitution pat seen.reverse ((c :: cs).drop pat.length) repl ++
        (c :: cs).drop pat.length
    else c :: replaceFirstSubAux pat repl (c :: seen) cs

/-- JS `s.replace(pat, repl)` on strings: first occurrence only, with
replacement-pattern substitution. -/
def jsReplaceFirst (s pat repl : String) : String :=
  String.mk (replaceFirstSubAux pat.data repl.data [] s.data)

/-- JS `s.split(pat)` for a non-empty string pattern `p :: ps`:
segments between non-overlapping, left-to-right occurrences. -/
def splitSubAux (p : Char) (ps : List Char) : List Char → List (List Char)
  | [] => [[]]
  | c :: cs =>
    if isPrefixL (p :: ps) (c :: cs) then
      [] :: splitSubAux p ps (cs.drop ps.length)
    else
      match splitSubAux p ps cs with
      | [] => [[c]]
      | seg :: rest => (c :: seg) :: rest
termination_by l => l.length
decreasing_by
  · simp only [List.length_cons]
    have := List.length_drop ps.length cs
    omega
  · simp

/-- JS `Array.prototype.join(sep)`. -/
def joinSepL (sep : List Char) : List (List Char) → List Char
  | [] => []
  | [x] => x
  | x :: xs => x ++ sep ++ joinSepL sep xs

/-- JS `s.split(pat).join(repl)`, the `replaceAll` path of `modify_text`.
An empty pattern splits into single characters, as in JS. -/
def jsSplitJoin (s pat repl : String) : String :=
  match pat.data with
  | [] => String.mk (joinSepL repl.data (s.data.map (fun c => [c])))
  | p :: ps => String.mk (joinSepL repl.data (splitSubAux p ps s.data))

/-- Specification-level replacement of every non-overlapping occurrence of
`p :: ps`, scanning left to right (the spec's wording for `replaceAll`). -/
def replaceScanL (p : Char) (ps repl : List Char) : List Char → List Char
  | [] => []
  | c :: cs =>
    if isPrefixL (p :: ps) (c :: cs) then repl ++ replaceScanL p ps repl (cs.drop ps.length)
    else c :: replaceScanL p ps repl cs
termination_by l => l.length
decreasing_by
  · simp only [List.length_cons]
    have := List.length_drop ps.length cs
    omega
  · simp

/-- JS whitespace test used by `trim` (approximated by Unicode whitespace). -/
def isJsSpace (c : Char) : Bool := c.isWhitespace

/-- JS `s.trim()`. -/
def jsTrim (s : String) : String :=
  String.mk (((s.data.dropWhile isJsSpace).reverse.dropWhile isJsSpace).reverse)

/-- JS `arr.join(sep)` on strings (used for `errors.join(", ")`). -/
def joinStrings (sep : String) : List String → String
  | [] => ""
  | [x] => x
  | x :: xs => x ++ sep ++ joinStrings sep xs

/-- JS `v || d` for an optional string: `undefined` and `""` are falsy. -/
def jsOrStr (v : Option String) (d : String) : String :=
  match v with
  | some s => if s = "" then d else s
  | none => d

/-- JS `a.join("/")` specialisation used for parent paths. -/
def joinSlash (parts : List String) : String :=
  joinStrings "/" parts

/-- JS `target.startsWith(pre)`. -/
def jsStartsWith (s pre : String) : Bool :=
  isPrefixL pre.data s.data

/- ### The workspace tree data model (`FileNode` from `App.tsx`) -/

/-- The `type` discriminator of a `FileNode`. -/
inductive NodeType where
  | file
  | folder
deriving DecidableEq, Repr

/-- `FileNode` of `App.tsx`: `{id, name, type, content?, children?, isExpanded?}`
(the purely visual `isSelected` flag is never read or written by any tool and
is omitted). -/
inductive FileNode where
  | mk (id : String) (name : String) (ntype : NodeType)
       (content : Option String) (children : Option (List FileNode))
       (isExpanded : Option Bool)

def FileNode.id : FileNode → String
  | .mk i _ _ _ _ _ => i

def FileNode.name : FileNode → String
  | .mk _ nm _ _ _ _ => nm

def FileNode.ntype : FileNode → NodeType
  | .mk _ _ ty _ _ _ => ty

def FileNode.content : FileNode → Option String
  | .mk _ _ _ co _ _ => co

def FileNode.children : FileNode → Option (List FileNode)
  | .mk _ _ _ _ ch _ => ch

def FileNode.isExpanded : FileNode → Option Bool
  | .mk _ _ _ _ _ ex => ex

/-- `{...node, children: cs}`. -/
def FileNode.withChildren : FileNode → Option (List FileNode) → FileNode
  | .mk i nm ty co _ ex, cs => .mk i nm ty co cs ex

/-- `{...node, content: c}`. -/
def FileNode.withContent : FileNode → Option String → FileNode
  | .mk i nm ty _ ch ex, c => .mk i nm ty c ch ex

/-- `{...node, name: nm}`. -/
def FileNode.withName : FileNode → String → FileNode
  | .mk i _ ty co ch ex, nm => .mk i nm ty co ch ex

/-- `{...node, id: i}`. -/
def FileNode.withId : FileNode → String → FileNode
  | .mk _ nm ty co ch ex, i => .mk i nm ty co ch ex

/- ### Path resolution (`findFileByPath`, identical in all four tool files) -/

/-- The segment walk of `findFileByPath`: match each part by `name`; an
intermediate node must be a folder with a (possibly empty) `children` array;
an empty part list resolves to nothing. -/
def findByParts : List FileNode → List String → Option FileNode
  | _, [] => none
  | nodes, [p] => nodes.find? (fun n => n.name = p)
  | nodes, p :: ps =>
    match nodes.find? (fun n => n.name = p) with
    | none => none
    | some n =>
      if n.ntype = NodeType.folder then
        match n.children with
        | some ch => findByParts ch ps
        | none => none
      else none

/-- `findFileByPath(nodes, targetPath)`. -/
def findFileByPath (nodes : List FileNode) (path : String) : Option FileNode :=
  findByParts nodes (pathParts path)

mutual

/-- One node of `getNodePath`: the absolute path of the node with id `tid`,
or `""` when it does not occur (JS returns the empty string for "not found",
and callers test it for truthiness). -/
def getNodePathF (tid : String) : FileNode → String → String
  | .mk i nm _ _ (some ch) _, currentPath =>
    let nodePath := if currentPath ≠ "" then currentPath ++ "/" ++ nm else nm
    if i = tid then nodePath else getNodePathL tid ch nodePath
  | .mk i nm _ _ none _, currentPath =>
    let nodePath := if currentPath ≠ "" then currentPath ++ "/" ++ nm else nm
    if i = tid then nodePath else ""

/-- `getNodePath(targetNode, nodes, currentPath)` over a node list. -/
def getNodePathL (tid : String) : List FileNode → String → String
  | [], _ => ""
  | n :: ns, currentPath =>
    let childPath := getNodePathF tid n currentPath
    if childPath ≠ "" then childPath else getNodePathL tid ns currentPath

end

/- ### Structural bookkeeping used by the theorems -/

mutual

/-- All ids of a node's subtree, in preorder. -/
def idsOfF : FileNode → List String
  | .mk i _ _ _ (some ch) _ => i :: idsOf ch
  | .mk i _ _ _ none _ => [i]

/-- All ids of a forest, in preorder. -/
def idsOf : List FileNode → List String
  | [] => []
  | n :: ns => idsOfF n ++ idsOf ns

end

mutual

/-- All nodes of a node's subtree, in preorder. -/
def allNodesF : FileNode → List FileNode
  | .mk i nm ty co (some ch) ex => .mk i nm ty co (some ch) ex :: allNodes ch
  | .mk i nm ty co none ex => [.mk i nm ty co none ex]

/-- All nodes of a forest, in preorder. -/
def allNodes : List FileNode → List FileNode
  | [] => []
  | n :: ns => allNodesF n ++ allNodes ns

end

mutual

/-- Number of nodes in a subtree. -/
def sizeF : FileNode → Nat
  | .mk _ _ _ _ (some ch) _ => 1 + sizeL ch
  | .mk _ _ _ _ none _ => 1

/-- Number of nodes in a forest. -/
def sizeL : List FileNode → Nat
  | [] => 0
  | n :: ns => sizeF n + sizeL ns

end

mutual

/-- A subtree with every `id` blanked out: compares name, type, content and
shape while ignoring ids. -/
def eraseIdsF : FileNode → FileNode
  | .mk _ nm ty co (some ch) ex => .mk "" nm ty co (some (eraseIdsL ch)) ex
  | .mk _ nm ty co none ex => .mk "" nm ty co none ex

/-- A forest with every `id` blanked out. -/
def eraseIdsL : List FileNode → List FileNode
  | [] => []
  | n :: ns => eraseIdsF n :: eraseIdsL ns

end

/-- Are all strings in the list pairwise distinct? -/
def distinctStr : List String → Bool
  | [] => true
  | x :: xs => (!xs.contains x) && distinctStr xs

/-- Names of the nodes of a forest (one level). -/
def namesL (ns : List FileNode) : List String :=
  ns.map FileNode.name

mutual

/-- Node part of the structural invariant: a file carries no `children`
array; a folder carries one whose members have pairwise distinct names and
themselves satisfy the invariant. -/
def invF : FileNode → Bool
  | .mk _ _ .file _ ch _ => ch.isNone
  | .mk _ _ .folder _ (some ch) _ => distinctStr (namesL ch) && invAll ch
  | .mk _ _ .folder _ none _ => false

/-- Forest part of the structural invariant. -/
def invAll : List FileNode → Bool
  | [] => true
  | n :: ns => invF n && invAll ns

end

/-- The structural invariant of the workspace tree: the nodes form a strict
tree (all ids are globally distinct, so no node is its own descendant and no
node occurs twice), sibling names never collide at any level, and only
folder nodes carry children. -/
def TreeInv (ns : List FileNode) : Bool :=
  distinctStr (idsOf ns) && distinctStr (namesL ns) && invAll ns

/- ### Tool results (`ToolResult` of `types.ts`) -/

/-- `CodeExecutionResult` of `types.ts`. -/
structure CodeExecutionResult where
  stdout : String
  stderr : String
  executionTime : Nat
  success : Bool
  error : Option String := none
deriving DecidableEq, Repr

/-- One entry of a `DirectoryListing`, second (innermost) level: the
`read_directory` handler at most lists two levels. -/
structure DirEntryChild where
  name : String
  etype : NodeType
  path : String
  size : Option Nat := none
  content : Option String := none
deriving DecidableEq, Repr

/-- One entry of a `DirectoryListing`, first level. -/
structure DirEntry where
  name : String
  etype : NodeType
  path : String
  size : Option Nat := none
  content : Option String := none
  children : Option (List DirEntryChild) := none
deriving DecidableEq, Repr

/-- `DirectoryListing` of `types.ts`. -/
structure DirectoryListing where
  path : String
  entries : List DirEntry
  totalCount : Nat
deriving DecidableEq, Repr

/-- The `data` payload of each tool's successful result, one constructor per
payload shape appearing in the source. -/
inductive ToolData where
  | createItemD (path name tyStr id parentPath : String)
  | deleteItemD (path name : String) (ty : NodeType) (id : String)
  | renameItemD (oldPath newPath oldName newName : String) (ty : NodeType) (id : String)
  | moveItemD (sourcePath targetPath newPath name : String) (ty : NodeType) (id : String)
  | copyItemD (sourcePath targetPath newPath originalName copyName : String)
      (ty : NodeType) (sourceId copyId : String)
  | writeFileD (path : String) (size : Nat) (created : Bool)
  | modifyTextD (filePath : String) (originalLength newLength : Nat)
      (modificationType : String) (findText replaceText : Option String)
  | readFileD (path content : String) (size : Nat)
  | readDirD (listing : DirectoryListing)
  | execD (r : CodeExecutionResult)
  | testD (r : CodeExecutionResult) (testPassed : Bool) (validationMessage : String)
      (hasErrors : Bool)
  | installD (message : String)
  | listD (packages : List String)
deriving DecidableEq, Repr

/-- The `metadata` object of a `ToolResult`: each optional field models one
key that some code path attaches (`undefined` = absent key). -/
structure Metadata where
  executionTime : Option Nat := none
  toolName : Option String := none
  registryExecutionTime : Option Nat := none
  codeLength : Option Nat := none
  filesIncluded : Option Nat := none
  workspaceFilesIncluded : Option Nat := none
  totalExecutionTime : Option Nat := none
  executedMainPy : Option Bool := none
  usedFallback : Option Bool := none
  outputValidated : Option Bool := none
deriving DecidableEq, Repr

/-- `ToolResult` of `types.ts`. -/
structure ToolResult where
  success : Bool
  data : Option ToolData := none
  error : Option String := none
  metadata : Option Metadata := none
deriving DecidableEq, Repr

/-- A failure result carrying `metadata: { executionTime: ... }`, the shape
every workspace tool builds on its error paths. -/
def errRes (msg : String) (elapsed : Nat) : ToolResult :=
  { success := false, error := some msg, metadata := some { executionTime := some elapsed } }

/-- Does the result's metadata carry an `executionTime` value? -/
def hasExecTime (r : ToolResult) : Bool :=
  match r.metadata with
  | some m => m.executionTime.isSome
  | none => false

/- ### `create_item` (`workspaceTools.ts`) -/

mutual

/-- `addToDirectory` of `createItemTool` over a node list. -/
def addToDirectoryL (full : List FileNode) (parentPath : String) (newNode : FileNode) :
    List FileNode → List FileNode
  | [] => []
  | n :: ns =>
    addToDirectoryF full parentPath newNode n :: addToDirectoryL full parentPath newNode ns

/-- Per-node step of `addToDirectory`: append `newNode` to the children of
the node whose absolute path in `full` (`getNodePath(node, fileTree)`) equals
`parentPath` and which is a folder; otherwise recurse into the children. -/
def addToDirectoryF (full : List FileNode) (parentPath : String) (newNode : FileNode) :
    FileNode → FileNode
  | .mk i nm ty co (some ch) ex =>
    if getNodePathL i full "" = parentPath ∧ ty = NodeType.folder then
      .mk i nm ty co (some (ch ++ [newNode])) ex
    else
      .mk i nm ty co (some (addToDirectoryL full parentPath newNode ch)) ex
  | .mk i nm ty co none ex =>
    if getNodePathL i full "" = parentPath ∧ ty = NodeType.folder then
      .mk i nm ty co (some [newNode]) ex
    else
      .mk i nm ty co none ex

end

/-- Rendering of a `NodeType` as the JS string literal. -/
def NodeType.str : NodeType → String
  | .file => "file"
  | .folder => "folder"

/-- The tail of `createItemTool.execute` once the parent directory is
settled: name-conflict check against the parent's children, node creation
and insertion.  `parentNode` is the sibling list (`parent.children || []` or
the root list). -/
def createItemInsert (fileTree : List FileNode) (path : String) (ty : NodeType)
    (content : Option String) (newId : String) (elapsed : Nat)
    (itemNameJS : Option String) (parentPath : String) (parentNode : List FileNode) :
    ToolResult × List FileNode :=
  let nameExists := parentNode.any (fun n =>
    match itemNameJS with
    | some s => n.name = s
    | none => false)
  if nameExists then
    (errRes ("Item with name '" ++ itemNameJS.getD "" ++ "' already exists in directory")
      elapsed, fileTree)
  else
    let newNode : FileNode := .mk newId (itemNameJS.getD "") ty
      (if ty = NodeType.file then some (content.getD "") else none)
      (if ty = NodeType.folder then some [] else none)
      (some false)
    let newTree :=
      if parentPath = "" then fileTree ++ [newNode]
      else addToDirectoryL fileTree parentPath newNode fileTree
    ({ success := true,
       data := some (.createItemD path (itemNameJS.getD "") ty.str newId
         (if parentPath = "" then "/" else parentPath)),
       metadata := some { executionTime := some elapsed } }, newTree)

/-- `createItemTool.execute` (`workspaceTools.ts`): `newId` models the
`generateId()` call, `elapsed` models `Date.now() - startTime`.  Returns the
result and the tree after the `updateFileTree` callback.  A path with no
non-empty segment makes `pathParts.pop()!` yield `undefined`; the created
node's `undefined` name is modelled as `""` (no comparison in the handler
distinguishes the two, because `node.name === undefined` is false exactly
when the name-match is skipped). -/
def createItem (fileTree : List FileNode) (path : String) (ty : NodeType)
    (content : Option String) (newId : String) (elapsed : Nat) :
    ToolResult × List FileNode :=
  match findFileByPath fileTree path with
  | some _ => (errRes ("Item already exists at path: " ++ path) elapsed, fileTree)
  | none =>
    let parts := pathParts path
    let itemNameJS : Option String := parts.getLast?
    let parentPath := joinSlash parts.dropLast
    if parentPath ≠ "" then
      match findFileByPath fileTree parentPath with
      | none => (errRes ("Parent directory not found: " ++ parentPath) elapsed, fileTree)
      | some parent =>
        if parent.ntype ≠ NodeType.folder then
          (errRes ("Parent path is not a directory: " ++ parentPath) elapsed, fileTree)
        else
          createItemInsert fileTree path ty content newId elapsed itemNameJS parentPath
            (parent.children.getD [])
    else
      createItemInsert fileTree path ty content newId elapsed itemNameJS parentPath fileTree

/- ### `delete_item` (`workspaceTools.ts`) -/

mutual

/-- Per-node step of `removeItem`: recurse into the children.  (In the
source, the `filter` callback also returns an object for nodes with
children — a truthy value, so it merely keeps the node; the `map` that
follows performs the actual recursion modelled here.) -/
def removeNode (tid : String) : FileNode → FileNode
  | .mk i nm ty co (some ch) ex => .mk i nm ty co (some (removeItem tid ch)) ex
  | .mk i nm ty co none ex => .mk i nm ty co none ex

/-- `removeItem` of `deleteItemTool`: drop every node whose id is `tid`, at
every depth, keeping everything else in place. -/
def removeItem (tid : String) : List FileNode → List FileNode
  | [] => []
  | n :: ns =>
    if n.id = tid then removeItem tid ns
    else removeNode tid n :: removeItem tid ns

end

/-- `deleteItemTool.execute` (`workspaceTools.ts`). -/
def deleteItem (fileTree : List FileNode) (path : String) (elapsed : Nat) :
    ToolResult × List FileNode :=
  match findFileByPath fileTree path with
  | none => (errRes ("Item not found: " ++ path) elapsed, fileTree)
  | some target =>
    ({ success := true,
       data := some (.deleteItemD path target.name target.ntype target.id),
       metadata := some { executionTime := some elapsed } },
     removeItem target.id fileTree)

/- ### `rename_item` (`workspaceTools.ts`) -/

mutual

/-- Per-node step of `renameItem`: the node with id `tid` gets the new
(trimmed) name, with id and children untouched. -/
def renameNodeF (tid newName : String) : FileNode → FileNode
  | .mk i nm ty co (some ch) ex =>
    if i = tid then .mk i newName ty co (some ch) ex
    else .mk i nm ty co (some (renameNodeL tid newName ch)) ex
  | .mk i nm ty co none ex =>
    if i = tid then .mk i newName ty co none ex
    else .mk i nm ty co none ex

/-- `renameItem` of `renameItemTool` over a node list. -/
def renameNodeL (tid newName : String) : List FileNode → List FileNode
  | [] => []
  | n :: ns => renameNodeF tid newName n :: renameNodeL tid newName ns

end

/-- `renameItemTool.execute` (`workspaceTools.ts`). -/
def renameItemTool (fileTree : List FileNode) (path newName : String) (elapsed : Nat) :
    ToolResult × List FileNode :=
  match findFileByPath fileTree path with
  | none => (errRes ("Item not found: " ++ path) elapsed, fileTree)
  | some target =>
    if newName = "" ∨ jsTrim newName = "" then
      (errRes "New name cannot be empty" elapsed, fileTree)
    else
      let parentPath := joinSlash (pathParts path).dropLast
      let siblings : List FileNode :=
        if parentPath ≠ "" then
          match findFileByPath fileTree parentPath with
          | some parent => parent.children.getD []
          | none => []
        else fileTree
      if siblings.any (fun n => n.name = jsTrim newName ∧ n.id ≠ target.id) then
        (errRes ("Item with name '" ++ newName ++ "' already exists in the same directory")
          elapsed, fileTree)
      else
        let newPath := if parentPath ≠ "" then parentPath ++ "/" ++ newName else newName
        ({ success := true,
           data := some (.renameItemD path newPath target.name (jsTrim newName)
             target.ntype target.id),
           metadata := some { executionTime := some elapsed } },
         renameNodeL target.id (jsTrim newName) fileTree)

/- ### `move_item` (`workspaceTools.ts`) -/

/-- The `moveItem` closure of `moveItemTool`.  Each call first removes the
source id at this level and recursively processes children
(`withoutSource`); with a root target it then appends `sourceItem` at this
level, otherwise it maps again, appending `sourceItem` to the folder whose
absolute path equals `targetPath` and recursing once more elsewhere.  The
second recursion runs on already-processed lists, so this is not structural
recursion; `fuel` bounds the recursion depth and is chosen by the caller
large enough for the execution being modelled (the JS original recurses
along `children` of finite trees and always terminates). -/
def moveItemRec (full : List FileNode) (src : FileNode) (targetPath : String) :
    Nat → List FileNode → List FileNode
  | 0, nodes => nodes
  | fuel + 1, nodes =>
    let withoutSource := (nodes.filter (fun n => n.id ≠ src.id)).map (fun n =>
      match n.children with
      | some ch => n.withChildren (some (moveItemRec full src targetPath fuel ch))
      | none => n)
    if targetPath = "" ∨ targetPath = "/" then
      withoutSource ++ [src]
    else
      withoutSource.map (fun n =>
        if getNodePathL n.id full "" = targetPath ∧ n.ntype = NodeType.folder then
          n.withChildren (some (n.children.getD [] ++ [src]))
        else
          match n.children with
          | some ch => n.withChildren (some (moveItemRec full src targetPath fuel ch))
          | none => n)

mutual

/-- Depth of a subtree, used to pick sufficient fuel for `moveItemRec`. -/
def depthF : FileNode → Nat
  | .mk _ _ _ _ (some ch) _ => 1 + depthL ch
  | .mk _ _ _ _ none _ => 1

/-- Depth of a forest. -/
def depthL : List FileNode → Nat
  | [] => 0
  | n :: ns => max (depthF n) (depthL ns)

end

/-- The checks of `moveItemTool.execute` after the target directory has been
validated: cycle prevention by raw string-prefix comparison of the two
path arguments, then the name-conflict check, then the tree rewrite. -/
def moveAfterTargetCheck (fileTree : List FileNode) (sourcePath targetPath : String)
    (sourceItem : FileNode) (targetChildren : List FileNode) (elapsed : Nat) :
    ToolResult × List FileNode :=
  if sourceItem.ntype = NodeType.folder ∧ targetPath ≠ "" ∧
      (jsStartsWith targetPath (sourcePath ++ "/") ∨ targetPath = sourcePath) then
    (errRes "Cannot move a folder into itself or its descendants" elapsed, fileTree)
  else if targetChildren.any (fun n => n.name = sourceItem.name) then
    (errRes ("Item with name '" ++ sourceItem.name ++ "' already exists in target directory")
      elapsed, fileTree)
  else
    let newTree := moveItemRec fileTree sourceItem targetPath
      (depthL fileTree + depthL [sourceItem] + 1) fileTree
    let newPath :=
      if targetPath ≠ "" ∧ targetPath ≠ "/" then targetPath ++ "/" ++ sourceItem.name
      else sourceItem.name
    ({ success := true,
       data := some (.moveItemD sourcePath (if targetPath = "" then "/" else targetPath)
         newPath sourceItem.name sourceItem.ntype sourceItem.id),
       metadata := some { executionTime := some elapsed } }, newTree)

/-- `moveItemTool.execute` (`workspaceTools.ts`). -/
def moveItemTool (fileTree : List FileNode) (sourcePath targetPath : String) (elapsed : Nat) :
    ToolResult × List FileNode :=
  match findFileByPath fileTree sourcePath with
  | none => (errRes ("Source item not found: " ++ sourcePath) elapsed, fileTree)
  | some sourceItem =>
    if targetPath ≠ "" ∧ targetPath ≠ "/" then
      match findFileByPath fileTree targetPath with
      | none => (errRes ("Target directory not found: " ++ targetPath) elapsed, fileTree)
      | some targetDir =>
        if targetDir.ntype ≠ NodeType.folder then
          (errRes ("Target path is not a directory: " ++ targetPath) elapsed, fileTree)
        else
          moveAfterTargetCheck fileTree sourcePath targetPath sourceItem
            (targetDir.children.getD []) elapsed
    else
      moveAfterTargetCheck fileTree sourcePath targetPath sourceItem fileTree elapsed

/- ### `copy_item` (`workspaceTools.ts`) -/

mutual

/-- `cloneFileNode`: deep-clone with a freshly generated id for every node.
`gen` models `generateId()` as a supply indexed by a counter `k`; ids are
drawn in preorder; the next unused counter is returned. -/
def cloneNode (gen : Nat → String) (k : Nat) : FileNode → FileNode × Nat
  | .mk _ nm ty co (some ch) ex =>
    let r := cloneList gen (k + 1) ch
    (.mk (gen k) nm ty co (some r.1) ex, r.2)
  | .mk _ nm ty co none ex => (.mk (gen k) nm ty co none ex, k + 1)

/-- `node.children.map(cloneFileNode)` with the id supply threaded through. -/
def cloneList (gen : Nat → String) (k : Nat) : List FileNode → List FileNode × Nat
  | [] => ([], k)
  | n :: ns =>
    let r1 := cloneNode gen k n
    let r2 := cloneList gen r1.2 ns
    (r1.1 :: r2.1, r2.2)

end

mutual

/-- The `nodes.map(...)` of `addCopiedItem`'s non-root branch. -/
def addCopiedItemMap (full : List FileNode) (targetPath : String) (copied : FileNode) :
    List FileNode → List FileNode
  | [] => []
  | n :: ns => addCopiedItemF full targetPath copied n :: addCopiedItemMap full targetPath copied ns

/-- Per-node step of `addCopiedItem`'s non-root branch.  (The source
recurses through the top-level `addCopiedItem`, whose root test depends only
on the fixed `targetPath`, which is non-root on this branch — so the
recursion goes straight back to the `map`.) -/
def addCopiedItemF (full : List FileNode) (targetPath : String) (copied : FileNode) :
    FileNode → FileNode
  | .mk i nm ty co (some ch) ex =>
    if getNodePathL i full "" = targetPath ∧ ty = NodeType.folder then
      .mk i nm ty co (some (ch ++ [copied])) ex
    else
      .mk i nm ty co (some (addCopiedItemMap full targetPath copied ch)) ex
  | .mk i nm ty co none ex =>
    if getNodePathL i full "" = targetPath ∧ ty = NodeType.folder then
      .mk i nm ty co (some [copied]) ex
    else
      .mk i nm ty co none ex

end

/-- `addCopiedItem` of `copyItemTool`: with a root target the copy is
appended at this level; otherwise the folder whose absolute path equals
`targetPath` receives it, and other nodes recurse. -/
def addCopiedItemL (full : List FileNode) (targetPath : String) (copied : FileNode)
    (nodes : List FileNode) : List FileNode :=
  if targetPath = "" ∨ targetPath = "/" then nodes ++ [copied]
  else addCopiedItemMap full targetPath copied nodes

/-- The tail of `copyItemTool.execute` once the target directory is
settled: effective copy name, conflict check, deep clone and insertion. -/
def copyAfterTargetCheck (fileTree : List FileNode) (sourcePath targetPath : String)
    (newName : Option String) (gen : Nat → String) (sourceItem : FileNode)
    (targetChildren : List FileNode) (elapsed : Nat) : ToolResult × List FileNode :=
  let copyName := jsOrStr newName sourceItem.name
  if targetChildren.any (fun n => n.name = copyName) then
    (errRes ("Item with name '" ++ copyName ++ "' already exists in target directory")
      elapsed, fileTree)
  else
    let copied := ((cloneNode gen 0 sourceItem).1).withName copyName
    let newTree := addCopiedItemL fileTree targetPath copied fileTree
    let newPath :=
      if targetPath ≠ "" ∧ targetPath ≠ "/" then targetPath ++ "/" ++ copyName
      else copyName
    ({ success := true,
       data := some (.copyItemD sourcePath (if targetPath = "" then "/" else targetPath)
         newPath sourceItem.name copyName sourceItem.ntype sourceItem.id copied.id),
       metadata := some { executionTime := some elapsed } }, newTree)

/-- `copyItemTool.execute` (`workspaceTools.ts`).  `gen` models
`generateId()` for the deep clone (counter starting at 0), `elapsed` the
wall-clock measurement. -/
def copyItemTool (fileTree : List FileNode) (sourcePath targetPath : String)
    (newName : Option String) (gen : Nat → String) (elapsed : Nat) :
    ToolResult × List FileNode :=
  match findFileByPath fileTree sourcePath with
  | none => (errRes ("Source item not found: " ++ sourcePath) elapsed, fileTree)
  | some sourceItem =>
    if targetPath ≠ "" ∧ targetPath ≠ "/" then
      match findFileByPath fileTree targetPath with
      | none => (errRes ("Target directory not found: " ++ targetPath) elapsed, fileTree)
      | some targetDir =>
        if targetDir.ntype ≠ NodeType.folder then
          (errRes ("Target path is not a directory: " ++ targetPath) elapsed, fileTree)
        else
          copyAfterTargetCheck fileTree sourcePath targetPath newName gen sourceItem
            (targetDir.children.getD []) elapsed
    else
      copyAfterTargetCheck fileTree sourcePath targetPath newName gen sourceItem
        fileTree elapsed

/- ### `write_file` (`fileSystemTools.ts`) -/

mutual

/-- Per-node step of `writeFileTool`'s `updateFile`: the node matching both
the resolved file's name and id gets the new content (children untouched);
others recurse. -/
def updateFileWF (exName exId content : String) : FileNode → FileNode
  | .mk i nm ty co (some ch) ex =>
    if nm = exName ∧ i = exId then .mk i nm ty (some content) (some ch) ex
    else .mk i nm ty co (some (updateFileWL exName exId content ch)) ex
  | .mk i nm ty co none ex =>
    if nm = exName ∧ i = exId then .mk i nm ty (some content) none ex
    else .mk i nm ty co none ex

/-- `updateFile` of `writeFileTool` over a node list. -/
def updateFileWL (exName exId content : String) : List FileNode → List FileNode
  | [] => []
  | n :: ns => updateFileWF exName exId content n :: updateFileWL exName exId content ns

end

mutual

/-- `addToDir` of `writeFileTool` over a node list.  `localFull` is the list
the current `map` runs over: the source computes `getNodePath(node, nodes)`
against this *local* list (not the root tree), so the comparison sees paths
relative to the current level. -/
def addToDirWMap (dirPath : String) (newFile : FileNode) (localFull : List FileNode) :
    List FileNode → List FileNode
  | [] => []
  | n :: ns =>
    addToDirWF dirPath newFile localFull n :: addToDirWMap dirPath newFile localFull ns

/-- Per-node step of `addToDir`. -/
def addToDirWF (dirPath : String) (newFile : FileNode) (localFull : List FileNode) :
    FileNode → FileNode
  | .mk i nm ty co (some ch) ex =>
    if getNodePathL i localFull "" = dirPath ∧ ty = NodeType.folder then
      .mk i nm ty co (some (ch ++ [newFile])) ex
    else
      .mk i nm ty co (some (addToDirWMap dirPath newFile ch ch)) ex
  | .mk i nm ty co none ex =>
    if getNodePathL i localFull "" = dirPath ∧ ty = NodeType.folder then
      .mk i nm ty co (some [newFile]) ex
    else
      .mk i nm ty co none ex

end

/-- The creation tail of `writeFileTool.execute`: build the new file node
and insert it at the root or through `addToDir`. -/
def writeFileCreate (fileTree : List FileNode) (path content newId : String)
    (elapsed : Nat) (fileNameJS : Option String) (dirPath : String) :
    ToolResult × List FileNode :=
  let newFile : FileNode := .mk newId (fileNameJS.getD "") NodeType.file (some content) none none
  let newTree :=
    if dirPath = "" then fileTree ++ [newFile]
    else addToDirWMap dirPath newFile fileTree fileTree
  ({ success := true,
     data := some (.writeFileD path content.length true),
     metadata := some { executionTime := some elapsed } }, newTree)

/-- `writeFileTool.execute` (`fileSystemTools.ts`): replace the content of an
existing file in place, or create a new file after validating the parent
path.  `newId` models the inline id generation, `elapsed` the timing.  As in
`createItem`, the `undefined` name produced by `pop()` on an empty path is
modelled as `""`. -/
def writeFile (fileTree : List FileNode) (path content : String) (newId : String)
    (elapsed : Nat) : ToolResult × List FileNode :=
  match findFileByPath fileTree path with
  | some existingFile =>
    if existingFile.ntype ≠ NodeType.file then
      (errRes ("Path exists but is not a file: " ++ path) elapsed, fileTree)
    else
      ({ success := true,
         data := some (.writeFileD path content.length false),
         metadata := some { executionTime := some elapsed } },
       updateFileWL existingFile.name existingFile.id content fileTree)
  | none =>
    let parts := pathParts path
    let fileNameJS : Option String := parts.getLast?
    let dirPath := joinSlash parts.dropLast
    if dirPath ≠ "" then
      match findFileByPath fileTree dirPath with
      | none => (errRes ("Parent directory not found: " ++ dirPath) elapsed, fileTree)
      | some targetDir =>
        if targetDir.ntype ≠ NodeType.folder then
          (errRes ("Parent path is not a directory: " ++ dirPath) elapsed, fileTree)
        else
          writeFileCreate fileTree path content newId elapsed fileNameJS dirPath
    else
      writeFileCreate fileTree path content newId elapsed fileNameJS dirPath

/- ### `modify_text` (`codeEditingTools.ts`) -/

mutual

/-- Per-node step of `modifyTextTool`'s `updateFile`: the node with the
target id gets the final content; others recurse. -/
def updContentF (tid content : String) : FileNode → FileNode
  | .mk i nm ty co (some ch) ex =>
    if i = tid then .mk i nm ty (some content) (some ch) ex
    else .mk i nm ty co (some (updContentL tid content ch)) ex
  | .mk i nm ty co none ex =>
    if i = tid then .mk i nm ty (some content) none ex
    else .mk i nm ty co none ex

/-- `updateFile` of `modifyTextTool` over a node list. -/
def updContentL (tid content : String) : List FileNode → List FileNode
  | [] => []
  | n :: ns => updContentF tid content n :: updContentL tid content ns

end

/-- The common success tail of `modifyTextTool`: rewrite the tree and build
the result object.  The `findText`/`replaceText` data fields are included
exactly when `findText` is truthy (present and non-empty), as the
`...(findText && { findText, replaceText })` spread does. -/
def modifySuccess (fileTree : List FileNode) (filePath : String) (target : FileNode)
    (originalContent finalContent modType : String)
    (findText replaceText : Option String) (elapsed : Nat) : ToolResult × List FileNode :=
  let includeFields : Bool := match findText with
    | some f => f ≠ ""
    | none => false
  ({ success := true,
     data := some (.modifyTextD filePath originalContent.length finalContent.length modType
       (if includeFields then findText else none)
       (if includeFields then replaceText else none)),
     metadata := some { executionTime := some elapsed } },
   updContentL target.id finalContent fileTree)

/-- `modifyTextTool.execute` (`codeEditingTools.ts`). -/
def modifyText (fileTree : List FileNode) (filePath : String)
    (newContent findText replaceText : Option String) (replaceAll : Bool)
    (elapsed : Nat) : ToolResult × List FileNode :=
  match findFileByPath fileTree filePath with
  | none => (errRes ("File not found: " ++ filePath) elapsed, fileTree)
  | some target =>
    if target.ntype ≠ NodeType.file then
      (errRes ("Path is not a file: " ++ filePath) elapsed, fileTree)
    else
      let originalContent := target.content.getD ""
      match newContent with
      | some nc =>
        modifySuccess fileTree filePath target originalContent nc "full_replace"
          findText replaceText elapsed
      | none =>
        match findText, replaceText with
        | some ft, some rt =>
          if strIncludes originalContent ft = false then
            (errRes ("Text not found in file: \"" ++ ft ++ "\"") elapsed, fileTree)
          else
            let finalContent :=
              if replaceAll then jsSplitJoin originalContent ft rt
              else jsReplaceFirst originalContent ft rt
            modifySuccess fileTree filePath target originalContent finalContent
              "find_replace" findText replaceText elapsed
        | _, _ =>
          (errRes "Either newContent or both findText and replaceText must be provided"
            elapsed, fileTree)

/- ### `read_file` and `read_directory` (`fileSystemTools.ts`) -/

/-- `readFileTool.execute`. -/
def readFileTool (fileTree : List FileNode) (path : String) (elapsed : Nat) : ToolResult :=
  match findFileByPath fileTree path with
  | none => errRes ("File not found: " ++ path) elapsed
  | some target =>
    if target.ntype ≠ NodeType.file then errRes ("Path is not a file: " ++ path) elapsed
    else
      { success := true,
        data := some (.readFileD path (target.content.getD "")
          (match target.content with
           | some c => c.length
           | none => 0)),
        metadata := some { executionTime := some elapsed } }

/-- One second-level entry of `read_directory` (`node.children.map(child => ...)`).
The `size` field is present only for files with truthy (non-empty) content. -/
def entryChildOf (parentPathStr : String) (includeContent : Bool) (child : FileNode) :
    DirEntryChild :=
  { name := child.name, etype := child.ntype,
    path := parentPathStr ++ "/" ++ child.name,
    size := match child.ntype, child.content with
      | NodeType.file, some c => if c ≠ "" then some c.length else none
      | _, _ => none,
    content := if includeContent ∧ child.ntype = NodeType.file then child.content else none }

/-- One first-level entry of `read_directory`. -/
def entryOf (pathOfNode : String) (includeContent recursive : Bool) (n : FileNode) :
    DirEntry :=
  { name := n.name, etype := n.ntype, path := pathOfNode,
    size := match n.ntype, n.content with
      | NodeType.file, some c => if c ≠ "" then some c.length else none
      | _, _ => none,
    content := if includeContent ∧ n.ntype = NodeType.file then n.content else none,
    children :=
      if recursive ∧ n.ntype = NodeType.folder then
        match n.children with
        | some ch => some (ch.map (entryChildOf pathOfNode includeContent))
        | none => none
      else none }

/-- `readDirectoryTool.execute`. -/
def readDirectory (fileTree : List FileNode) (path : String)
    (includeContent recursive : Bool) (elapsed : Nat) : ToolResult :=
  if path = "" ∨ path = "/" ∨ path = "." then
    let entries := fileTree.map (fun n => entryOf n.name includeContent recursive n)
    { success := true,
      data := some (.readDirD
        { path := if path = "" then "/" else path, entries := entries,
          totalCount := entries.length }),
      metadata := some { executionTime := some elapsed } }
  else
    match findFileByPath fileTree path with
    | none => errRes ("Directory not found: " ++ path) elapsed
    | some targetDir =>
      if targetDir.ntype ≠ NodeType.folder then
        errRes ("Path is not a directory: " ++ path) elapsed
      else
        let entries := (targetDir.children.getD []).map (fun n =>
          entryOf (path ++ "/" ++ n.name) includeContent recursive n)
        { success := true,
          data := some (.readDirD
            { path := path, entries := entries, totalCount := entries.length }),
          metadata := some { executionTime := some elapsed } }

/- ### The execution channel of `execute_python` (`codeExecutionTools.ts`)

The handler wraps the worker round-trip in a promise: it installs a
`message` listener, posts `{type:"run", ...}` and starts a `setTimeout`
timer.  A `result`/`error` message clears the timer, removes the listener
and resolves; the timer rejects with a timeout error but removes nothing.
The machine below models the channel's listener list, pending timers and
settled promises over a timeline of events, so that several calls against
the same worker can be analysed. -/

/-- A worker message as seen by `handleMessage` (`ready`/other types fall
into `otherMsg` and are ignored by the listener). -/
inductive WMsg where
  | result (stdout stderr : Option String) (executionTime : Option Nat)
  | errorMsg (err : Option String)
  | otherMsg
deriving DecidableEq, Repr

deriving instance DecidableEq for Except

/-- How one `execute_python` promise settled: `Except.error` is a rejection
(the timeout path), `Except.ok` a resolution (the worker's reply, which
itself may describe a failed execution). -/
structure Settled where
  cid : Nat
  settleTime : Nat
  outcome : Except String CodeExecutionResult
deriving DecidableEq, Repr

/-- A pending `setTimeout`: deadline, call id, configured duration. -/
structure PendTimer where
  deadline : Nat
  cid : Nat
  timeout : Nat
deriving DecidableEq, Repr

/-- The channel state: attached `message` listeners (one per outstanding
call, in attach order), pending timers, call start times, settled promises
and the number of `run` requests posted. -/
structure ChanState where
  listeners : List Nat := []
  timers : List PendTimer := []
  starts : List (Nat × Nat) := []
  settled : List Settled := []
  posted : Nat := 0
deriving DecidableEq, Repr

/-- Is the call's promise already settled? -/
def isSettled (st : ChanState) (cid : Nat) : Bool :=
  st.settled.any (fun s => s.cid = cid)

/-- The settle record of a call, if any. -/
def settleOf (st : ChanState) (cid : Nat) : Option Settled :=
  st.settled.find? (fun s => s.cid = cid)

/-- `startTime` of a call (`Date.now()` when the handler was entered). -/
def startTimeOf (st : ChanState) (cid : Nat) : Nat :=
  ((st.starts.find? (fun p => p.1 = cid)).map (fun p => p.2)).getD 0

/-- The timeout rejection message of `execute_python`. -/
def timeoutMsg (timeout : Nat) : String :=
  "Code execution timed out after " ++ toString timeout ++ "ms"

/-- A timer fires: if the call is still pending, its promise rejects with
the timeout error; an already-settled promise is unaffected.  The listener
is *not* removed (the timeout path of the source removes nothing). -/
def fireTimer (st : ChanState) (tr : PendTimer) : ChanState :=
  if isSettled st tr.cid then st
  else { st with settled := st.settled ++ [⟨tr.cid, tr.deadline, Except.error (timeoutMsg tr.timeout)⟩] }

/-- Fire every timer whose deadline is at or before `t` and drop them. -/
def fireDue (t : Nat) (st : ChanState) : ChanState :=
  let due := st.timers.filter (fun tr => tr.deadline ≤ t)
  let rest := st.timers.filter (fun tr => ¬ tr.deadline ≤ t)
  { due.foldl fireTimer st with timers := rest }

/-- One listener (`handleMessage` of call `cid`) receives a message at time
`t`.  A `result` or `error` reply removes the listener and its timer and
resolves the promise if still pending; anything else is ignored. -/
def deliverOne (t : Nat) (m : WMsg) (st : ChanState) (cid : Nat) : ChanState :=
  match m with
  | .result so se x =>
    let st' := { st with listeners := st.listeners.erase cid,
                         timers := st.timers.filter (fun tr => tr.cid ≠ cid) }
    if isSettled st' cid then st'
    else { st' with settled := st'.settled ++
      [⟨cid, t, Except.ok ⟨so.getD "", se.getD "", x.getD 0, true, none⟩⟩] }
  | .errorMsg e =>
    let st' := { st with listeners := st.listeners.erase cid,
                         timers := st.timers.filter (fun tr => tr.cid ≠ cid) }
    if isSettled st' cid then st'
    else { st' with settled := st'.settled ++
      [⟨cid, t, Except.ok ⟨"", jsOrStr e "Unknown execution error", t - startTimeOf st' cid,
        false, some (jsOrStr e "Unknown execution error")⟩⟩] }
  | .otherMsg => st

/-- A message arrives on the channel: it is dispatched to the snapshot of
the listeners attached at that moment, in attach order. -/
def deliver (t : Nat) (m : WMsg) (st : ChanState) : ChanState :=
  st.listeners.foldl (deliverOne t m) st

/-- The kinds of timeline events: a new `execute_python` call against the
channel (listener attach + `run` post + timer start), or a worker reply. -/
inductive TEvKind where
  | startRun (cid : Nat) (timeout : Nat)
  | reply (m : WMsg)
deriving DecidableEq, Repr

/-- A timed event. -/
structure TEv where
  time : Nat
  kind : TEvKind
deriving DecidableEq, Repr

/-- Process one timeline event: first fire the timers that became due, then
apply the event. -/
def stepEv (st : ChanState) (e : TEv) : ChanState :=
  let st' := fireDue e.time st
  match e.kind with
  | .startRun cid timeout =>
    { st' with listeners := st'.listeners ++ [cid],
               timers := st'.timers ++ [⟨e.time + timeout, cid, timeout⟩],
               starts := st'.starts ++ [(cid, e.time)],
               posted := st'.posted + 1 }
  | .reply m => deliver e.time m st'

/-- Fire all remaining timers (the timeline has ended; every pending
timeout eventually fires). -/
def fireAll (st : ChanState) : ChanState :=
  st.timers.foldl fireTimer { st with timers := [] }

/-- Run a timeline (events in chronological order) from the empty channel
state. -/
def runChannel (evs : List TEv) : ChanState :=
  fireAll (evs.foldl stepEv {})

/-- `executePythonTool.execute` given how the call's promise settled: a
resolution produces the `{success, data, error, metadata}` result; a
rejection is caught by the surrounding `try` and converted to a failure
with `metadata.executionTime` only.  The early worker-missing failure is
also covered. -/
def executePythonResult (workerAvailable : Bool) (code : String) (filesCount : Nat)
    (settle : Except String CodeExecutionResult) (elapsed : Nat) : ToolResult :=
  if workerAvailable = false then
    errRes "Pyodide worker not available. Please ensure the worker is initialized." elapsed
  else
    match settle with
    | .ok r =>
      { success := r.success, data := some (.execD r), error := r.error,
        metadata := some { executionTime := some elapsed, codeLength := some code.length,
                           filesIncluded := some filesCount } }
    | .error msg => errRes msg elapsed

mutual

/-- `convertFileTreeToFiles` on one node: a file with defined content
contributes its pair; a folder with children contributes its flattened
subtree. -/
def convertNodeToFiles : FileNode → String → List (String × String)
  | .mk _ nm ty co (some ch) _, basePath =>
    let currentPath := if basePath ≠ "" then basePath ++ "/" ++ nm else nm
    (match ty, co with
     | NodeType.file, some c => [(currentPath, c)]
     | _, _ => []) ++
    (match ty with
     | NodeType.folder => convertFileTreeToFiles ch currentPath
     | _ => [])
  | .mk _ nm ty co none _, basePath =>
    let currentPath := if basePath ≠ "" then basePath ++ "/" ++ nm else nm
    (match ty, co with
     | NodeType.file, some c => [(currentPath, c)]
     | _, _ => [])

/-- `convertFileTreeToFiles`: flatten the workspace tree to `{path, content}`
pairs (files with defined content only), prefixing folder names. -/
def convertFileTreeToFiles : List FileNode → String → List (String × String)
  | [], _ => []
  | n :: ns, basePath =>
    convertNodeToFiles n basePath ++ convertFileTreeToFiles ns basePath

end

/-- `result.metadata` with absent metadata read as the empty object (the
`...result.metadata` spread of an `undefined` value adds no keys). -/
def orEmptyMeta (m : Option Metadata) : Metadata :=
  m.getD {}

/-- `executeWithWorkspaceTool.execute`: convert the tree, delegate to
`execute_python`, then extend the metadata. -/
def executeWithWorkspace (workerAvailable : Bool) (fileTree : List FileNode) (code : String)
    (settle : Except String CodeExecutionResult) (elapsedInner elapsedOuter : Nat) :
    ToolResult :=
  if workerAvailable = false then
    errRes "Pyodide worker not available. Please ensure the worker is initialized." elapsedOuter
  else
    let files := convertFileTreeToFiles fileTree ""
    let inner := executePythonResult true code files.length settle elapsedInner
    { inner with metadata := some ({ orEmptyMeta inner.metadata with
        workspaceFilesIncluded := some files.length,
        totalExecutionTime := some elapsedOuter }) }

/-- `runMainScriptTool.execute`. -/
def runMainScript (workerAvailable : Bool) (fileTree : List FileNode)
    (fallbackCode : Option String) (settle : Except String CodeExecutionResult)
    (elapsedInner elapsedOuter : Nat) : ToolResult :=
  let fb := fallbackCode.getD ""
  if workerAvailable = false then
    errRes "Pyodide worker not available. Please ensure the worker is initialized." elapsedOuter
  else
    let files := convertFileTreeToFiles fileTree ""
    let hasMainPy := files.any (fun f => f.1 = "main.py")
    if hasMainPy = false ∧ fb = "" then
      errRes "No main.py file found and no fallback code provided" elapsedOuter
    else
      let inner := executePythonResult true fb files.length settle elapsedInner
      { inner with metadata := some ({ orEmptyMeta inner.metadata with
          executedMainPy := some hasMainPy,
          usedFallback := some (hasMainPy = false ∧ fb.length > 0),
          totalExecutionTime := some elapsedOuter }) }

/-- `testCodeTool.execute`: run the code, pass failures through unchanged,
otherwise validate trimmed stdout against `expectedOutput` and build the
test payload. -/
def testCode (workerAvailable : Bool) (code : String) (expectedOutput : Option String)
    (settle : Except String CodeExecutionResult) (elapsedInner elapsedOuter : Nat) :
    ToolResult :=
  if workerAvailable = false then
    errRes "Pyodide worker not available. Please ensure the worker is initialized." elapsedOuter
  else
    let inner := executePythonResult true code 0 settle elapsedInner
    if inner.success = false then inner
    else
      match settle with
      | .ok r =>
        let validationPassed := match expectedOutput with
          | some e => jsTrim r.stdout = jsTrim e
          | none => true
        let validationMessage := match expectedOutput with
          | some e =>
            if jsTrim r.stdout = jsTrim e then "Output matches expected result"
            else "Expected: \"" ++ jsTrim e ++ "\", Got: \"" ++ jsTrim r.stdout ++ "\""
          | none => ""
        { success := true,
          data := some (.testD r (r.success && validationPassed) validationMessage
            (r.stderr.length > 0)),
          metadata := some { executionTime := some elapsedOuter,
                             codeLength := some code.length,
                             outputValidated := some expectedOutput.isSome } }
      | .error _ => inner

/- ### `install_package` and `list_packages` (`packageManagementTools.ts`) -/

/-- The worker's acknowledgement of an `install` request: the first
`success`/`error` message the one-shot `onmessage` handler sees. -/
inductive InstallReply where
  | ok (message : Option String)
  | fail (err : Option String)
deriving DecidableEq, Repr

/-- `installPackageTool.execute`: short-circuit when the package is already
in the module-level `installedPackages` set; otherwise post one `install`
request and settle on the reply, adding the name to the set only in the
`success` branch.  Returns the result, the new set and the number of
messages posted to the worker. -/
def installPackage (installed : List String) (pkg : String) (reply : InstallReply) :
    ToolResult × List String × Nat :=
  if installed.contains pkg then
    ({ success := true, data := some (.installD ("Package " ++ pkg ++ " already installed")) },
     installed, 0)
  else
    match reply with
    | .ok _ =>
      ({ success := true, data := some (.installD ("Installed package " ++ pkg)) },
       installed ++ [pkg], 1)
    | .fail e =>
      ({ success := false, error := some (jsOrStr e ("Failed to install package " ++ pkg)) },
       installed, 1)

/-- `listPackagesTool.execute`: `Array.from(installedPackages)`, no
metadata. -/
def listPackages (installed : List String) : ToolResult :=
  { success := true, data := some (.listD installed) }

/- ### The tool registry (`agentToolRegistry.ts`) -/

/-- The shape of a JS value as the validator sees it: `typeof` plus
`Array.isArray`.  Payloads are irrelevant to validation and are carried
abstractly (string/number/boolean keep a value so that handlers—modelled as
functions—could inspect them). -/
inductive JSValue where
  | str (v : String)
  | num (v : Int)
  | boolv (v : Bool)
  | arrv
  | objv
  | nullv
  | undef
  | func
deriving DecidableEq, Repr

/-- JS `typeof`. -/
def typeofJS : JSValue → String
  | .str _ => "string"
  | .num _ => "number"
  | .boolv _ => "boolean"
  | .arrv => "object"
  | .objv => "object"
  | .nullv => "object"
  | .undef => "undefined"
  | .func => "function"

/-- JS `Array.isArray`. -/
def isArrayJS : JSValue → Bool
  | .arrv => true
  | _ => false

/-- A declared parameter type in a tool schema (`paramSchema.type`). -/
inductive PType where
  | pstring
  | pnumber
  | pboolean
  | parray
  | pobject
deriving DecidableEq, Repr

/-- A registered tool as the registry sees it: name plus declared parameter
schema (`properties` with their `type`, and the `required` list). -/
structure MTool where
  name : String
  properties : List (String × PType)
  required : List String
deriving DecidableEq, Repr

/-- An argument object: association list of keys to JS values (JS object
keys are unique). -/
def Params := List (String × JSValue)

/-- The per-parameter type check of `validateParameters`: one error message
for a declared primitive type not matched by the supplied value. -/
def typeErrorOf (pname : String) (pty : PType) (v : JSValue) : Option String :=
  match pty with
  | .pstring =>
    if typeofJS v ≠ "string" then
      some ("Parameter '" ++ pname ++ "' should be a string, got " ++ typeofJS v)
    else none
  | .pnumber =>
    if typeofJS v ≠ "number" then
      some ("Parameter '" ++ pname ++ "' should be a number, got " ++ typeofJS v)
    else none
  | .pboolean =>
    if typeofJS v ≠ "boolean" then
      some ("Parameter '" ++ pname ++ "' should be a boolean, got " ++ typeofJS v)
    else none
  | .parray =>
    if isArrayJS v = false then
      some ("Parameter '" ++ pname ++ "' should be an array, got " ++ typeofJS v)
    else none
  | .pobject =>
    if typeofJS v ≠ "object" ∨ isArrayJS v then
      some ("Parameter '" ++ pname ++ "' should be an object, got " ++ typeofJS v)
    else none

/-- `validateParameters(toolName, params)` of `AgentToolRegistryImpl`: an
unknown tool is itself an error; otherwise one pass over the `required`
list (missing-key errors) followed by one pass over the supplied entries
(type errors for declared properties), both accumulating. -/
def validateParameters (tools : List MTool) (toolName : String) (params : Params) :
    Bool × List String :=
  match tools.find? (fun t => t.name = toolName) with
  | none => (false, ["Tool '" ++ toolName ++ "' not found"])
  | some tool =>
    let errs1 := tool.required.foldl (fun acc rq =>
      if params.any (fun kv => kv.1 = rq) then acc
      else acc ++ ["Missing required parameter: " ++ rq]) []
    let errs := params.foldl (fun acc kv =>
      match tool.properties.find? (fun pr => pr.1 = kv.1) with
      | some pr =>
        match typeErrorOf kv.1 pr.2 kv.2 with
        | some e => acc ++ [e]
        | none => acc
      | none => acc) errs1
    (errs.isEmpty, errs)

/-- `{...params, ...context}`: the context wins on key collision; context
keys absent from the arguments are appended. -/
def mergeParams (args ctx : Params) : Params :=
  args.map (fun kv =>
    match ctx.find? (fun c => c.1 = kv.1) with
    | some c => (kv.1, c.2)
    | none => kv) ++
  ctx.filter (fun c => args.any (fun kv => kv.1 = c.1) = false)

/-- `AgentToolRegistryImpl.execute(name, params)`: look the tool up, require
a context, merge it over the arguments, validate, then run the handler and
attach the registry metadata (`toolName`, `registryExecutionTime`) on top of
whatever metadata the handler returned.  The handler is passed as a
function so that theorems can state when it is (not) consulted;
`regElapsed` models the registry's own wall-clock measurement. -/
def registryExecute (tools : List MTool) (nm : String) (ctx : Option Params)
    (args : Params) (handler : Params → ToolResult) (regElapsed : Nat) : ToolResult :=
  match tools.find? (fun t => t.name = nm) with
  | none => errRes ("Tool '" ++ nm ++ "' not found in registry") regElapsed
  | some _ =>
    match ctx with
    | none => errRes "Tool execution context not set. Please call setContext() first." regElapsed
    | some c =>
      let enhanced := mergeParams args c
      let v := validateParameters tools nm enhanced
      if v.1 = false then
        errRes ("Parameter validation failed: " ++ joinStrings ", " v.2) regElapsed
      else
        let r := handler enhanced
        { r with metadata := some ({ orEmptyMeta r.metadata with
            toolName := some nm, registryExecutionTime := some regElapsed }) }

/- ### Concrete workspaces and timelines used by the claim theorems -/

/-- A workspace with one folder `B` containing one file `x`. -/
def demoTreeBx : List FileNode :=
  [ .mk "id_B" "B" .folder none (some [ .mk "id_x" "x" .file (some "hello") none none ]) none ]

/-- A workspace with a folder `a` containing an empty folder `b`. -/
def demoTreeAb : List FileNode :=
  [ .mk "id_a" "a" .folder none (some [ .mk "id_b" "b" .folder none (some []) none ]) none ]

/-- A workspace with a single file `test.txt` containing `"A"`. -/
def demoTreeTest : List FileNode :=
  [ .mk "id_t" "test.txt" .file (some "A") none none ]

/-- A workspace with a single file `a`. -/
def demoTreeA : List FileNode :=
  [ .mk "id_f" "a" .file (some "x") none none ]

/-- An id supply for concrete evaluations of `copy_item`. -/
def demoGen (k : Nat) : String :=
  "fresh_" ++ toString k

/-- The stale-reply timeline: a run with a 100 ms timeout at time 0 against
a channel that never answers it, a second run issued at 120 ms (after the
first call's timeout fired), and a late reply arriving at 150 ms. -/
def staleTimeline : List TEv :=
  [ ⟨0, .startRun 1 100⟩, ⟨120, .startRun 2 100⟩,
    ⟨150, .reply (.result (some "stale") none (some 5))⟩ ]

/- ### Theorems -/

/-- Structural induction over forests of workspace nodes, with an induction
hypothesis for the children list of a folder and for the tail. -/
theorem forest_ind (Q : List FileNode → Prop)
    (hnil : Q [])
    (hnone : ∀ i nm ty co ex ns, Q ns → Q (FileNode.mk i nm ty co none ex :: ns))
    (hsome : ∀ i nm ty co ch ex ns, Q ch → Q ns →
      Q (FileNode.mk i nm ty co (some ch) ex :: ns)) :
    ∀ ns, Q ns
  | [] => hnil
  | FileNode.mk i nm ty co none ex :: ns =>
      hnone i nm ty co ex ns (forest_ind Q hnil hnone hsome ns)
  | FileNode.mk i nm ty co (some ch) ex :: ns =>
      hsome i nm ty co ch ex ns (forest_ind Q hnil hnone hsome ch)
        (forest_ind Q hnil hnone hsome ns)

/-- C3: `move_item` breaks the structural invariant.  Moving the file `B/x`
to the root (`targetPath = ""`, the documented way to address the root)
succeeds, but the `moveItem` rewrite appends the source node at *every*
recursion level, so the resulting tree holds `x` both at the root and still
inside `B`: the id `id_x` occurs twice and the strict-tree invariant is
violated, although the input tree satisfied it. -/
theorem claim3_move_to_root_breaks_invariant :
    TreeInv demoTreeBx = true ∧
    (moveItemTool demoTreeBx "B/x" "" 7).1.success = true ∧
    idsOf (moveItemTool demoTreeBx "B/x" "" 7).2 = ["id_B", "id_x", "id_x"] ∧
    TreeInv (moveItemTool demoTreeBx "B/x" "" 7).2 = false :=
  ⟨rfl, rfl, rfl, rfl⟩

/-- C4: `write_file` silently drops a file whose parent folder is nested
deeper than one level.  With the tree `a/b` and path `"a/b/f.txt"` the
parent path validates, the handler reports success with `created: true`,
but `addToDir` compares `getNodePath(node, nodes)` against the *local* node
list, so no node ever matches the absolute parent path `"a/b"`: the tree is
returned unchanged and the path still does not resolve. -/
theorem claim4_write_file_nested_parent_lost :
    (writeFile demoTreeAb "a/b/f.txt" "hi" "new_id" 3).1.success = true ∧
    (writeFile demoTreeAb "a/b/f.txt" "hi" "new_id" 3).1.data =
      some (.writeFileD "a/b/f.txt" 2 true) ∧
    (writeFile demoTreeAb "a/b/f.txt" "hi" "new_id" 3).2 = demoTreeAb ∧
    findFileByPath (writeFile demoTreeAb "a/b/f.txt" "hi" "new_id" 3).2 "a/b/f.txt" = none :=
  ⟨rfl, rfl, rfl, rfl⟩

/-- C6 counterexample: the cycle check compares the raw path strings, not
the resolved paths.  In the tree `a/b` (both folders), `"/a/b"` denotes the
folder `b` inside the subtree of the source `a` — resolution drops the
leading slash — yet `move_item("a", "/a/b")` does not fail with the
cycle-prevention error: it returns success (destroying the subtree), because
`"/a/b"` neither equals `"a"` nor starts with `"a/"`. -/
theorem claim6_counterexample_unnormalized_target_bypasses_cycle_check :
    ((findFileByPath demoTreeAb "/a/b").map FileNode.id = some "id_b" ∧
      (findFileByPath demoTreeAb "a").map FileNode.id = some "id_a") ∧
    (moveItemTool demoTreeAb "a" "/a/b" 7).1.success = true ∧
    (moveItemTool demoTreeAb "a" "/a/b" 7).2 = [] :=
  ⟨⟨rfl, rfl⟩, rfl, rfl⟩

/-- C7 counterexample: a supplied empty `newName` does not override the
top-level name.  `copy_item("B/x", "", newName = "")` succeeds, but because
`newName || sourceItem.name` treats the supplied `""` as absent, the copy is
named `"x"`, not the supplied `newName`. -/
theorem claim7_counterexample_empty_newName_ignored :
    (copyItemTool demoTreeBx "B/x" "" (some "") demoGen 4).1.success = true ∧
    (copyItemTool demoTreeBx "B/x" "" (some "") demoGen 4).1.data =
      some (.copyItemD "B/x" "/" "x" "x" "x" NodeType.file "id_x" "fresh_0") ∧
    ((copyItemTool demoTreeBx "B/x" "" (some "") demoGen 4).2).map FileNode.name =
      ["B", "x"] :=
  ⟨rfl, rfl, rfl⟩

/-- C1 counterexample: a `list_packages` call dispatched through the
registry (context set, validation passing, the handler reached) returns a
result whose metadata carries the registry's `toolName` and
`registryExecutionTime` but **no** `executionTime`: the handler attaches no
metadata at all. -/
theorem claim1_counterexample_list_packages_no_executionTime :
    (registryExecute [⟨"list_packages", [], []⟩] "list_packages"
        (some [("fileTree", .arrv), ("updateFileTree", .func), ("pyodideWorker", .objv)])
        [] (fun _ => listPackages ["numpy"]) 9).metadata =
      some { executionTime := none, toolName := some "list_packages",
             registryExecutionTime := some 9 } ∧
    hasExecTime (registryExecute [⟨"list_packages", [], []⟩] "list_packages"
        (some [("fileTree", .arrv), ("updateFileTree", .func), ("pyodideWorker", .objv)])
        [] (fun _ => listPackages ["numpy"]) 9) = false :=
  ⟨rfl, rfl⟩

/-- C2 counterexample: a late reply is *not* discarded.  On the stale
timeline — call 1 with a 100 ms timeout at t=0, never answered; call 2
issued at t=120; the worker's reply arriving at t=150 — call 1 rejects at
its deadline with the timeout error, but the listener of call 2 also
receives the late reply and call 2 resolves successfully with the stale
payload, which the claim says must not happen. -/
theorem claim2_counterexample_stale_reply_resolves_later_call :
    settleOf (runChannel staleTimeline) 1 =
      some ⟨1, 100, Except.error "Code execution timed out after 100ms"⟩ ∧
    settleOf (runChannel staleTimeline) 2 =
      some ⟨2, 150, Except.ok ⟨"stale", "", 5, true, none⟩⟩ :=
  ⟨rfl, rfl⟩

/-- C8: `install_package` is idempotent on the installed-package set.  A
package already in the set short-circuits to success with no message posted
to the worker and the set unchanged; otherwise exactly one `install` request
is posted and the name is added to the set only on a `success`
acknowledgement — an `error` reply leaves the set unchanged and fails the
call. -/
theorem claim8_install_idempotent (installed : List String) (pkg : String)
    (reply : InstallReply) :
    (installed.contains pkg = true →
      installPackage installed pkg reply =
        ({ success := true,
           data := some (.installD ("Package " ++ pkg ++ " already installed")) },
         installed, 0)) ∧
    (installed.contains pkg = false →
      (installPackage installed pkg reply).2.2 = 1 ∧
      (∀ m, reply = .ok m →
        (installPackage installed pkg reply).2.1 = installed ++ [pkg] ∧
        (installPackage installed pkg reply).1.success = true) ∧
      (∀ e, reply = .fail e →
        (installPackage installed pkg reply).2.1 = installed ∧
        (installPackage installed pkg reply).1.success = false)) := by
  constructor
  · intro h
    unfold installPackage
    rw [h]
    simp
  · intro h
    refine ⟨?_, ?_, ?_⟩
    · unfold installPackage
      rw [h]
      cases reply <;> simp
    · intro m hm
      subst hm
      unfold installPackage
      rw [h]
      simp
    · intro e he
      subst he
      unfold installPackage
      rw [h]
      simp

/-- Witness for C8 at concrete inputs: the short-circuit branch for an
already-installed package. -/
theorem claim8_witness :
    installPackage ["numpy"] "numpy" (InstallReply.ok none) =
      ({ success := true, data := some (.installD "Package numpy already installed") },
       ["numpy"], 0) :=
  (claim8_install_idempotent ["numpy"] "numpy" (InstallReply.ok none)).1 (by decide)

/-- The required-parameter pass of `validateParameters` pushes exactly one
message per missing key, in order. -/
theorem reqLoop_spec (params : Params) (l : List String) (acc : List String) :
    l.foldl (fun acc rq =>
      if params.any (fun kv => kv.1 = rq) then acc
      else acc ++ ["Missing required parameter: " ++ rq]) acc
    = acc ++ (l.filter (fun rq => params.any (fun kv => kv.1 = rq) = false)).map
        (fun rq => "Missing required parameter: " ++ rq) := by
  induction l generalizing acc with
  | nil => simp
  | cons rq l ih =>
    simp only [List.foldl_cons, List.filter_cons]
    cases h : params.any (fun kv => kv.1 = rq) with
    | true => rw [ih]; simp [h]
    | false => rw [ih]; simp [h]

/-- The type-check pass of `validateParameters` pushes exactly one message
per declared-type mismatch among the supplied entries, in order. -/
theorem typeLoop_spec (props : List (String × PType)) (l : List (String × JSValue))
    (acc : List String) :
    l.foldl (fun acc kv =>
      match props.find? (fun pr => pr.1 = kv.1) with
      | some pr =>
        match typeErrorOf kv.1 pr.2 kv.2 with
        | some e => acc ++ [e]
        | none => acc
      | none => acc) acc
    = acc ++ l.filterMap (fun kv =>
        match props.find? (fun pr => pr.1 = kv.1) with
        | some pr => typeErrorOf kv.1 pr.2 kv.2
        | none => none) := by
  induction l generalizing acc with
  | nil => simp
  | cons kv l ih =>
    simp only [List.foldl_cons, List.filterMap_cons]
    cases hf : props.find? (fun pr => pr.1 = kv.1) with
    | none =>
      simp only [hf]
      rw [ih]
    | some pr =>
      cases ht : typeErrorOf kv.1 pr.2 kv.2 with
      | none =>
        simp only [hf, ht]
        rw [ih]
      | some e =>
        simp only [hf, ht]
        rw [ih]
        simp

/-- C10: `validateParameters` reports every violation — one error per
missing required parameter, in declaration order, followed by one error per
declared-primitive type mismatch among the supplied entries, in entry order;
both passes run unconditionally and the result is valid exactly when no
error accumulated.  When the merged arguments are invalid, `execute` returns
the same failure whatever the handler is (the handler is never consulted),
whose single error message aggregates all the violations. -/
theorem claim10_validation_accumulates (tools : List MTool) (nm : String) (tool : MTool)
    (hfind : tools.find? (fun t => t.name = nm) = some tool) (params : Params) :
    (validateParameters tools nm params).2 =
      (tool.required.filter (fun rq => params.any (fun kv => kv.1 = rq) = false)).map
        (fun rq => "Missing required parameter: " ++ rq) ++
      params.filterMap (fun kv =>
        match tool.properties.find? (fun pr => pr.1 = kv.1) with
        | some pr => typeErrorOf kv.1 pr.2 kv.2
        | none => none) ∧
    ((validateParameters tools nm params).1 = true ↔
      (validateParameters tools nm params).2 = []) ∧
    (∀ (ctx args : Params) (regElapsed : Nat),
      mergeParams args ctx = params →
      (validateParameters tools nm params).1 = false →
      ∀ handler₁ handler₂ : Params → ToolResult,
        registryExecute tools nm (some ctx) args handler₁ regElapsed =
          registryExecute tools nm (some ctx) args handler₂ regElapsed ∧
        registryExecute tools nm (some ctx) args handler₁ regElapsed =
          errRes ("Parameter validation failed: " ++
            joinStrings ", " (validateParameters tools nm params).2) regElapsed) := by
  have hval : validateParameters tools nm params =
      (((tool.required.filter (fun rq => params.any (fun kv => kv.1 = rq) = false)).map
          (fun rq => "Missing required parameter: " ++ rq) ++
        params.filterMap (fun kv =>
          match tool.properties.find? (fun pr => pr.1 = kv.1) with
          | some pr => typeErrorOf kv.1 pr.2 kv.2
          | none => none)).isEmpty,
       (tool.required.filter (fun rq => params.any (fun kv => kv.1 = rq) = false)).map
          (fun rq => "Missing required parameter: " ++ rq) ++
        params.filterMap (fun kv =>
          match tool.properties.find? (fun pr => pr.1 = kv.1) with
          | some pr => typeErrorOf kv.1 pr.2 kv.2
          | none => none)) := by
    simp only [validateParameters, hfind, typeLoop_spec, reqLoop_spec, List.nil_append]
  refine ⟨?_, ?_, ?_⟩
  · rw [hval]
  · rw [hval]
    simp [List.isEmpty_iff]
  · intro ctx args regElapsed hmerge hinvalid handler₁ handler₂
    simp only [registryExecute, hfind, hmerge, hinvalid]
    simp

/-- Witness for C10 at a concrete tool and argument object: two missing
required parameters and one type mismatch produce three accumulated errors,
and `execute` aggregates them into one failure message. -/
theorem claim10_witness :
    (validateParameters [⟨"t", [("a", PType.pstring), ("b", PType.pnumber)], ["a", "c"]⟩]
      "t" [("b", JSValue.str "x"), ("d", JSValue.num 3)]).2 =
      ["Missing required parameter: a", "Missing required parameter: c",
       "Parameter 'b' should be a number, got string"] ∧
    registryExecute [⟨"t", [("a", PType.pstring), ("b", PType.pnumber)], ["a", "c"]⟩]
      "t" (some []) [("b", JSValue.str "x"), ("d", JSValue.num 3)]
      (fun _ => listPackages []) 5 =
      errRes ("Parameter validation failed: Missing required parameter: a, " ++
        "Missing required parameter: c, Parameter 'b' should be a number, got string") 5 := by
  have h := claim10_validation_accumulates
    [⟨"t", [("a", PType.pstring), ("b", PType.pnumber)], ["a", "c"]⟩] "t"
    ⟨"t", [("a", PType.pstring), ("b", PType.pnumber)], ["a", "c"]⟩ (by rfl)
    [("b", JSValue.str "x"), ("d", JSValue.num 3)]
  constructor
  · rw [h.1]
    decide
  · have h3 := h.2.2 [] [("b", JSValue.str "x"), ("d", JSValue.num 3)] 5 (by rfl) (by rfl)
      (fun _ => listPackages []) (fun _ => listPackages [])
    rw [h3.2]
    decide

/-- Every return path of `create_item` carries `metadata.executionTime`. -/
theorem hasExecTime_createItem (fileTree : List FileNode) (path : String) (ty : NodeType)
    (content : Option String) (newId : String) (elapsed : Nat) :
    hasExecTime (createItem fileTree path ty content newId elapsed).1 = true := by
  unfold createItem createItemInsert
  repeat' (first | split | dsimp only)
  all_goals simp_all [hasExecTime, errRes]

/-- Every return path of `delete_item` carries `metadata.executionTime`. -/
theorem hasExecTime_deleteItem (fileTree : List FileNode) (path : String) (elapsed : Nat) :
    hasExecTime (deleteItem fileTree path elapsed).1 = true := by
  unfold deleteItem
  repeat' (first | split | dsimp only)
  all_goals simp_all [hasExecTime, errRes]

/-- Every return path of `rename_item` carries `metadata.executionTime`. -/
theorem hasExecTime_renameItem (fileTree : List FileNode) (path newName : String)
    (elapsed : Nat) :
    hasExecTime (renameItemTool fileTree path newName elapsed).1 = true := by
  unfold renameItemTool
  repeat' (first | split | dsimp only)
  all_goals simp_all [hasExecTime, errRes]

/-- Every return path of `move_item` carries `metadata.executionTime`. -/
theorem hasExecTime_moveItem (fileTree : List FileNode) (sourcePath targetPath : String)
    (elapsed : Nat) :
    hasExecTime (moveItemTool fileTree sourcePath targetPath elapsed).1 = true := by
  unfold moveItemTool moveAfterTargetCheck
  repeat' (first | split | dsimp only)
  all_goals simp_all [hasExecTime, errRes]

/-- Every return path of `copy_item` carries `metadata.executionTime`. -/
theorem hasExecTime_copyItem (fileTree : List FileNode) (sourcePath targetPath : String)
    (newName : Option String) (gen : Nat → String) (elapsed : Nat) :
    hasExecTime (copyItemTool fileTree sourcePath targetPath newName gen elapsed).1 = true := by
  unfold copyItemTool copyAfterTargetCheck
  repeat' (first | split | dsimp only)
  all_goals simp_all [hasExecTime, errRes]

/-- Every return path of `write_file` carries `metadata.executionTime`. -/
theorem hasExecTime_writeFile (fileTree : List FileNode) (path content newId : String)
    (elapsed : Nat) :
    hasExecTime (writeFile fileTree path content newId elapsed).1 = true := by
  unfold writeFile writeFileCreate
  repeat' (first | split | dsimp only)
  all_goals simp_all [hasExecTime, errRes]

/-- Every return path of `modify_text` carries `metadata.executionTime`. -/
theorem hasExecTime_modifyText (fileTree : List FileNode) (filePath : String)
    (newContent findText replaceText : Option String) (replaceAll : Bool) (elapsed : Nat) :
    hasExecTime (modifyText fileTree filePath newContent findText replaceText replaceAll
      elapsed).1 = true := by
  unfold modifyText modifySuccess
  repeat' (first | split | dsimp only)
  all_goals simp_all [hasExecTime, errRes]

/-- Every return path of `read_file` carries `metadata.executionTime`. -/
theorem hasExecTime_readFile (fileTree : List FileNode) (path : String) (elapsed : Nat) :
    hasExecTime (readFileTool fileTree path elapsed) = true := by
  unfold readFileTool
  repeat' (first | split | dsimp only)
  all_goals simp_all [hasExecTime, errRes]

/-- Every return path of `read_directory` carries `metadata.executionTime`. -/
theorem hasExecTime_readDirectory (fileTree : List FileNode) (path : String)
    (includeContent recursive : Bool) (elapsed : Nat) :
    hasExecTime (readDirectory fileTree path includeContent recursive elapsed) = true := by
  unfold readDirectory
  repeat' (first | split | dsimp only)
  all_goals simp_all [hasExecTime, errRes]

/-- Every return path of `execute_python` carries `metadata.executionTime`. -/
theorem hasExecTime_executePython (workerAvailable : Bool) (code : String) (filesCount : Nat)
    (settle : Except String CodeExecutionResult) (elapsed : Nat) :
    hasExecTime (executePythonResult workerAvailable code filesCount settle elapsed) = true := by
  unfold executePythonResult
  repeat' (first | split | dsimp only)
  all_goals simp_all [hasExecTime, errRes]

/-- Every return path of `execute_with_workspace` carries
`metadata.executionTime`. -/
theorem hasExecTime_executeWithWorkspace (workerAvailable : Bool) (fileTree : List FileNode)
    (code : String) (settle : Except String CodeExecutionResult) (e₁ e₂ : Nat) :
    hasExecTime (executeWithWorkspace workerAvailable fileTree code settle e₁ e₂) = true := by
  unfold executeWithWorkspace executePythonResult
  repeat' (first | split | dsimp only)
  all_goals simp_all [hasExecTime, errRes, orEmptyMeta]

/-- Every return path of `run_main_script` carries `metadata.executionTime`. -/
theorem hasExecTime_runMainScript (workerAvailable : Bool) (fileTree : List FileNode)
    (fallbackCode : Option String) (settle : Except String CodeExecutionResult) (e₁ e₂ : Nat) :
    hasExecTime (runMainScript workerAvailable fileTree fallbackCode settle e₁ e₂) = true := by
  unfold runMainScript executePythonResult
  repeat' (first | split | dsimp only)
  all_goals simp_all [hasExecTime, errRes, orEmptyMeta]

/-- Every return path of `test_code` carries `metadata.executionTime`. -/
theorem hasExecTime_testCode (workerAvailable : Bool) (code : String)
    (expectedOutput : Option String) (settle : Except String CodeExecutionResult)
    (e₁ e₂ : Nat) :
    hasExecTime (testCode workerAvailable code expectedOutput settle e₁ e₂) = true := by
  unfold testCode executePythonResult
  repeat' (first | split | dsimp only)
  all_goals simp_all [hasExecTime, errRes, orEmptyMeta]

/-- The registry's metadata attachment (`toolName`,
`registryExecutionTime`) preserves the presence and value of the handler's
`executionTime`. -/
theorem hasExecTime_registry_attach (r : ToolResult) (nm : String) (t : Nat) :
    hasExecTime { r with metadata := some ({ orEmptyMeta r.metadata with
      toolName := some nm, registryExecutionTime := some t }) } = hasExecTime r := by
  cases hm : r.metadata with
  | none => simp [hasExecTime, orEmptyMeta, hm]
  | some m => simp [hasExecTime, orEmptyMeta, hm]

/-- C1 (amended): every tool handler except `install_package` and
`list_packages` returns `metadata.executionTime` on every path, measured
from handler entry to return, and the registry's metadata attachment
preserves it; the `install_package` and `list_packages` handlers return no
metadata at all, so even after registry dispatch their results carry no
`executionTime`. -/
theorem claim1_executionTime_amended :
    (∀ fileTree path ty content newId elapsed,
      hasExecTime (createItem fileTree path ty content newId elapsed).1 = true) ∧
    (∀ fileTree path elapsed, hasExecTime (deleteItem fileTree path elapsed).1 = true) ∧
    (∀ fileTree path newName elapsed,
      hasExecTime (renameItemTool fileTree path newName elapsed).1 = true) ∧
    (∀ fileTree sourcePath targetPath elapsed,
      hasExecTime (moveItemTool fileTree sourcePath targetPath elapsed).1 = true) ∧
    (∀ fileTree sourcePath targetPath newName gen elapsed,
      hasExecTime (copyItemTool fileTree sourcePath targetPath newName gen elapsed).1 = true) ∧
    (∀ fileTree path content newId elapsed,
      hasExecTime (writeFile fileTree path content newId elapsed).1 = true) ∧
    (∀ fileTree filePath newContent findText replaceText replaceAll elapsed,
      hasExecTime (modifyText fileTree filePath newContent findText replaceText replaceAll
        elapsed).1 = true) ∧
    (∀ fileTree path elapsed, hasExecTime (readFileTool fileTree path elapsed) = true) ∧
    (∀ fileTree path includeContent recursive elapsed,
      hasExecTime (readDirectory fileTree path includeContent recursive elapsed) = true) ∧
    (∀ workerAvailable code filesCount settle elapsed,
      hasExecTime (executePythonResult workerAvailable code filesCount settle elapsed) = true) ∧
    (∀ workerAvailable fileTree code settle e₁ e₂,
      hasExecTime (executeWithWorkspace workerAvailable fileTree code settle e₁ e₂) = true) ∧
    (∀ workerAvailable fileTree fallbackCode settle e₁ e₂,
      hasExecTime (runMainScript workerAvailable fileTree fallbackCode settle e₁ e₂) = true) ∧
    (∀ workerAvailable code expectedOutput settle e₁ e₂,
      hasExecTime (testCode workerAvailable code expectedOutput settle e₁ e₂) = true) ∧
    (∀ r nm t, hasExecTime { r with metadata := some ({ orEmptyMeta r.metadata with
      toolName := some nm, registryExecutionTime := some t }) } = hasExecTime r) ∧
    (∀ installed pkg reply, hasExecTime (installPackage installed pkg reply).1 = false) ∧
    (∀ installed, hasExecTime (listPackages installed) = false) := by
  refine ⟨hasExecTime_createItem, hasExecTime_deleteItem, hasExecTime_renameItem,
    hasExecTime_moveItem, hasExecTime_copyItem, hasExecTime_writeFile,
    hasExecTime_modifyText, hasExecTime_readFile, hasExecTime_readDirectory,
    hasExecTime_executePython, hasExecTime_executeWithWorkspace, hasExecTime_runMainScript,
    hasExecTime_testCode, hasExecTime_registry_attach, ?_, ?_⟩
  · intro installed pkg reply
    unfold installPackage
    repeat' split
    all_goals simp [hasExecTime]
  · intro installed
    simp [hasExecTime, listPackages]

/-- C6 (amended): the cycle check of `move_item` compares the raw path
strings: whenever the source resolves to a folder, the target resolves to a
folder, and the `targetPath` string literally equals `sourcePath` or extends
it with `"/"` (a descendant path in the same canonical spelling, at any
depth), the call fails with the cycle-prevention conflict error and the
tree is unchanged.  (A target path that *denotes* a descendant in a
different spelling — e.g. with a leading slash — bypasses the check, see
the counterexample.) -/
theorem claim6_cycle_amended (fileTree : List FileNode) (sourcePath targetPath : String)
    (elapsed : Nat) (s t : FileNode)
    (hs : findFileByPath fileTree sourcePath = some s)
    (hsf : s.ntype = NodeType.folder)
    (ht : findFileByPath fileTree targetPath = some t)
    (htf : t.ntype = NodeType.folder)
    (hpre : targetPath = sourcePath ∨ jsStartsWith targetPath (sourcePath ++ "/") = true) :
    moveItemTool fileTree sourcePath targetPath elapsed =
      (errRes "Cannot move a folder into itself or its descendants" elapsed, fileTree) := by
  have hne : targetPath ≠ "" := by
    intro h
    subst h
    rw [show findFileByPath fileTree "" = none from rfl] at ht
    exact Option.noConfusion ht
  have hns : targetPath ≠ "/" := by
    intro h
    subst h
    rw [show findFileByPath fileTree "/" = none from rfl] at ht
    exact Option.noConfusion ht
  unfold moveItemTool
  rw [hs]
  dsimp only
  rw [if_pos ⟨hne, hns⟩, ht]
  dsimp only
  rw [if_neg (show ¬(t.ntype ≠ NodeType.folder) from by simp [htf])]
  unfold moveAfterTargetCheck
  rw [if_pos ⟨hsf, hne, hpre.elim (fun h => Or.inr h) (fun h => Or.inl h)⟩]

/-- Witness for C6 at a concrete input: moving the folder `a` into its
canonical descendant path `a/b` fails with the conflict error. -/
theorem claim6_witness :
    moveItemTool demoTreeAb "a" "a/b" 7 =
      (errRes "Cannot move a folder into itself or its descendants" 7, demoTreeAb) :=
  claim6_cycle_amended demoTreeAb "a" "a/b" 7
    (FileNode.mk "id_a" "a" .folder none (some [ .mk "id_b" "b" .folder none (some []) none ]) none)
    (FileNode.mk "id_b" "b" .folder none (some []) none)
    rfl rfl rfl rfl (Or.inr rfl)

/-- A top-level member of a forest is among its nodes. -/
theorem mem_allNodes_of_mem : ∀ (ns : List FileNode) (m : FileNode), m ∈ ns → m ∈ allNodes ns
  | n :: ns, m, h => by
    simp only [allNodes, List.mem_append]
    rcases List.mem_cons.mp h with h | h
    · subst h
      left
      cases m with
      | mk i nm ty co ch ex => cases ch <;> simp [allNodesF]
    · exact Or.inr (mem_allNodes_of_mem ns m h)

/-- Subtree nodes of a top-level member are nodes of the forest. -/
theorem allNodesF_sub : ∀ (ns : List FileNode) (m : FileNode), m ∈ ns →
    ∀ x, x ∈ allNodesF m → x ∈ allNodes ns
  | n :: ns, m, h, x, hx => by
    simp only [allNodes, List.mem_append]
    rcases List.mem_cons.mp h with h | h
    · subst h
      exact Or.inl hx
    · exact Or.inr (allNodesF_sub ns m h x hx)

/-- A resolved node is a node of the tree. -/
theorem findByParts_mem : ∀ (parts : List String) (ns : List FileNode) (n : FileNode),
    findByParts ns parts = some n → n ∈ allNodes ns
  | [], ns, n => by simp [findByParts]
  | [p], ns, n => by
    intro h
    simp only [findByParts] at h
    exact mem_allNodes_of_mem ns n (List.mem_of_find?_eq_some h)
  | p :: q :: ps, ns, n => by
    intro h
    simp only [findByParts] at h
    cases hf : ns.find? (fun x => x.name = p) with
    | none => simp [hf] at h
    | some m =>
      rw [hf] at h
      have hm : m ∈ ns := List.mem_of_find?_eq_some hf
      cases m with
      | mk i nm ty co ch ex =>
        cases ty with
        | file => simp [FileNode.ntype] at h
        | folder =>
          cases ch with
          | none => simp [FileNode.ntype, FileNode.children] at h
          | some ch =>
            simp only [FileNode.ntype, FileNode.children] at h
            rw [if_pos trivial] at h
            have hn := findByParts_mem (q :: ps) ch n h
            exact allNodesF_sub ns _ hm n (by simp [allNodesF, hn])

/-- The id of a node of the forest occurs among the forest's ids. -/
theorem id_mem_idsOf (ns : List FileNode) (n : FileNode) (h : n ∈ allNodes ns) :
    n.id ∈ idsOf ns := by
  induction ns using forest_ind with
  | hnil => simp [allNodes] at h
  | hnone i nm ty co ex ns ih =>
    simp only [allNodes, allNodesF, List.mem_append, List.mem_singleton] at h
    simp only [idsOf, idsOfF, List.cons_append, List.mem_cons]
    rcases h with h | h
    · subst h
      simp [FileNode.id]
    · simp only [List.nil_append]
      exact Or.inr (ih h)
  | hsome i nm ty co ch ex ns ihch ih =>
    simp only [allNodes, allNodesF, List.mem_append, List.mem_cons] at h
    simp only [idsOf, idsOfF, List.cons_append, List.mem_cons, List.mem_append]
    rcases h with (h | h) | h
    · subst h
      simp [FileNode.id]
    · exact Or.inr (Or.inl (ihch h))
    · exact Or.inr (Or.inr (ih h))

/-- The subtree ids of a node of the forest are among the forest's ids. -/
theorem idsOfF_sub (ns : List FileNode) (m : FileNode) (h : m ∈ allNodes ns) :
    ∀ x, x ∈ idsOfF m → x ∈ idsOf ns := by
  induction ns using forest_ind with
  | hnil => simp [allNodes] at h
  | hnone i nm ty co ex ns ih =>
    intro x hx
    simp only [allNodes, allNodesF, List.mem_append, List.mem_singleton] at h
    simp only [idsOf, idsOfF, List.cons_append, List.nil_append, List.mem_cons]
    rcases h with h | h
    · subst h
      simp only [idsOfF, List.mem_singleton] at hx
      exact Or.inl hx
    · exact Or.inr (ih h x hx)
  | hsome i nm ty co ch ex ns ihch ih =>
    intro x hx
    simp only [allNodes, allNodesF, List.mem_append, List.mem_cons] at h
    simp only [idsOf, idsOfF, List.cons_append, List.mem_cons, List.mem_append]
    rcases h with (h | h) | h
    · subst h
      simp only [idsOfF, List.mem_cons] at hx
      tauto
    · exact Or.inr (Or.inl (ihch h x hx))
    · exact Or.inr (Or.inr (ih h x hx))

/-- The subtree ids of a top-level member form an infix of the forest's
ids. -/
theorem idsOfF_infixOf : ∀ (ns : List FileNode) (m : FileNode), m ∈ ns →
    idsOfF m <:+: idsOf ns
  | n :: ns, m, h => by
    rcases List.mem_cons.mp h with h | h
    · subst h
      exact ⟨[], idsOf ns, by simp [idsOf]⟩
    · have := idsOfF_infixOf ns m h
      simp only [idsOf]
      exact this.trans (List.suffix_append _ _).isInfix

/-- `removeItem` leaves a forest unchanged when the id does not occur. -/
theorem removeItem_noop (tid : String) (ns : List FileNode) (h : tid ∉ idsOf ns) :
    removeItem tid ns = ns := by
  induction ns using forest_ind with
  | hnil => simp [removeItem]
  | hnone i nm ty co ex ns ih =>
    simp only [idsOf, idsOfF, List.cons_append, List.nil_append, List.mem_cons] at h
    push_neg at h
    rw [removeItem]
    rw [if_neg (by simp only [FileNode.id]; exact fun he => h.1 he.symm)]
    rw [removeNode, ih h.2]
  | hsome i nm ty co ch ex ns ih ihns =>
    simp only [idsOf, idsOfF, List.cons_append, List.mem_cons, List.mem_append] at h
    push_neg at h
    rw [removeItem]
    rw [if_neg (by simp only [FileNode.id]; exact fun he => h.1 he.symm)]
    rw [removeNode, ih h.2.1, ihns h.2.2]

/-- `removeNode` leaves a node unchanged when the id does not occur in its
subtree. -/
theorem removeNode_noop (tid : String) (n : FileNode) (h : tid ∉ idsOfF n) :
    removeNode tid n = n := by
  cases n with
  | mk i nm ty co ch ex =>
    cases ch with
    | none => rw [removeNode]
    | some ch =>
      simp only [idsOfF, List.mem_cons] at h
      push_neg at h
      rw [removeNode, removeItem_noop tid ch h.2]

/-- Everything `removeItem` keeps was already a node of the forest, with id,
name, type and content unchanged. -/
theorem removeItem_preserves (tid : String) (ns : List FileNode) :
    ∀ n' ∈ allNodes (removeItem tid ns), ∃ n ∈ allNodes ns,
      n'.id = n.id ∧ n'.name = n.name ∧ n'.ntype = n.ntype ∧ n'.content = n.content := by
  induction ns using forest_ind with
  | hnil => simp [removeItem, allNodes]
  | hnone i nm ty co ex ns ih =>
    intro n' h
    rw [removeItem] at h
    by_cases hid : (FileNode.mk i nm ty co none ex).id = tid
    · rw [if_pos hid] at h
      obtain ⟨n, hn, he⟩ := ih n' h
      exact ⟨n, by simp only [allNodes, List.mem_append]; exact Or.inr hn, he⟩
    · rw [if_neg hid, removeNode] at h
      simp only [allNodes, allNodesF, List.mem_append, List.mem_singleton] at h ⊢
      rcases h with h | h
      · exact ⟨FileNode.mk i nm ty co none ex, Or.inl rfl, by subst h; simp⟩
      · obtain ⟨n, hn, he⟩ := ih n' h
        exact ⟨n, Or.inr hn, he⟩
  | hsome i nm ty co ch ex ns ihch ih =>
    intro n' h
    rw [removeItem] at h
    by_cases hid : (FileNode.mk i nm ty co (some ch) ex).id = tid
    · rw [if_pos hid] at h
      obtain ⟨n, hn, he⟩ := ih n' h
      exact ⟨n, by simp only [allNodes, List.mem_append]; exact Or.inr hn, he⟩
    · rw [if_neg hid, removeNode] at h
      simp only [allNodes, allNodesF, List.mem_append, List.mem_cons] at h ⊢
      rcases h with (h | h) | h
      · refine ⟨FileNode.mk i nm ty co (some ch) ex, Or.inl (Or.inl rfl), ?_⟩
        subst h
        simp [FileNode.id, FileNode.name, FileNode.ntype, FileNode.content]
      · obtain ⟨n, hn, he⟩ := ihch n' h
        exact ⟨n, Or.inl (Or.inr hn), he⟩
      · obtain ⟨n, hn, he⟩ := ih n' h
        exact ⟨n, Or.inr hn, he⟩

/-- The id-level characterisation of `removeItem`: with globally distinct
ids, removing the id of a node `m` of the forest removes exactly the ids of
`m`'s subtree, at whatever depth `m` sits, and keeps every other id. -/
theorem removeItem_ids (ns : List FileNode) (m : FileNode)
    (hnd : (idsOf ns).Nodup) (hm : m ∈ allNodes ns) :
    ∀ x, x ∈ idsOf (removeItem m.id ns) ↔ (x ∈ idsOf ns ∧ x ∉ idsOfF m) := by
  induction ns using forest_ind with
  | hnil => simp [allNodes] at hm
  | hnone i nm ty co ex ns ih =>
    simp only [allNodes, allNodesF, List.mem_append, List.mem_singleton] at hm
    simp only [idsOf, idsOfF, List.cons_append, List.nil_append] at hnd ⊢
    have hins : i ∉ idsOf ns := hnd.not_mem
    rcases hm with hm | hm
    · subst hm
      intro x
      rw [removeItem, if_pos rfl, removeItem_noop _ _ (by simpa [FileNode.id] using hins)]
      simp only [idsOfF, FileNode.id, List.mem_cons, List.not_mem_nil, or_false,
        List.mem_singleton]
      constructor
      · intro hx
        exact ⟨Or.inr hx, fun he => hins (he ▸ hx)⟩
      · rintro ⟨hx | hx, hni⟩
        · exact absurd hx hni
        · exact hx
    · intro x
      have hmid : m.id ≠ i := fun he => hins (he ▸ id_mem_idsOf ns m hm)
      rw [removeItem, if_neg (by simp only [FileNode.id]; exact fun he => hmid he.symm),
        removeNode]
      have hsub := idsOfF_sub ns m hm
      simp only [idsOf, idsOfF, List.cons_append, List.nil_append, List.mem_cons]
      rw [ih hnd.of_cons hm x]
      have hinm : i ∉ idsOfF m := fun hx => hins (hsub i hx)
      constructor
      · rintro (hx | ⟨hx, hni⟩)
        · exact ⟨Or.inl hx, fun hc => hinm (hx ▸ hc)⟩
        · exact ⟨Or.inr hx, hni⟩
      · rintro ⟨hx | hx, hni⟩
        · exact Or.inl hx
        · exact Or.inr ⟨hx, hni⟩
  | hsome i nm ty co ch ex ns ihch ih =>
    simp only [allNodes, allNodesF, List.mem_append, List.mem_cons] at hm
    simp only [idsOf, idsOfF, List.cons_append, List.mem_cons, List.mem_append] at hnd ⊢
    have hnd' : ((i :: idsOf ch) ++ idsOf ns).Nodup := by
      simpa using hnd
    obtain ⟨hnd1, hnd2, hdisj⟩ := List.nodup_append.mp hnd'
    have hich : i ∉ idsOf ch := hnd1.not_mem
    have hins : i ∉ idsOf ns := fun hx => hdisj (List.mem_cons_self i _) hx
    have hchns : ∀ y, y ∈ idsOf ch → y ∉ idsOf ns := fun y hy hz =>
      hdisj (List.mem_cons_of_mem i hy) hz
    rcases hm with (hm | hm) | hm
    · subst hm
      intro x
      rw [removeItem, if_pos rfl, removeItem_noop _ _ (by simpa [FileNode.id] using hins)]
      simp only [idsOfF, FileNode.id, List.mem_cons]
      constructor
      · intro hx
        refine ⟨Or.inr (Or.inr hx), ?_⟩
        rintro (he | he)
        · exact hins (he ▸ hx)
        · exact hchns x he hx
      · rintro ⟨hx | hx | hx, hni⟩
        · exact absurd (Or.inl hx) hni
        · exact absurd (Or.inr hx) hni
        · exact hx
    · intro x
      have hmch : m.id ∈ idsOf ch := id_mem_idsOf ch m hm
      have hmid : m.id ≠ i := fun he => hich (he ▸ hmch)
      rw [removeItem, if_neg (by simp only [FileNode.id]; exact fun he => hmid he.symm),
        removeNode, removeItem_noop m.id ns (hchns m.id hmch)]
      have hsub := idsOfF_sub ch m hm
      have hinm : i ∉ idsOfF m := fun hx => hich (hsub i hx)
      have hnsm : ∀ y, y ∈ idsOf ns → y ∉ idsOfF m := fun y hy hx =>
        hchns y (hsub y hx) hy
      simp only [idsOf, idsOfF, List.cons_append, List.mem_cons, List.mem_append]
      rw [ihch hnd1.of_cons hm x]
      constructor
      · rintro (hx | ⟨hx, hni⟩ | hx)
        · exact ⟨Or.inl hx, fun hc => hinm (hx ▸ hc)⟩
        · exact ⟨Or.inr (Or.inl hx), hni⟩
        · exact ⟨Or.inr (Or.inr hx), hnsm x hx⟩
      · rintro ⟨hx | hx | hx, hni⟩
        · exact Or.inl hx
        · exact Or.inr (Or.inl ⟨hx, hni⟩)
        · exact Or.inr (Or.inr hx)
    · intro x
      have hmns : m.id ∈ idsOf ns := id_mem_idsOf ns m hm
      have hmid : m.id ≠ i := fun he => hins (he ▸ hmns)
      have hsub := idsOfF_sub ns m hm
      have hmidch : m.id ∉ idsOf ch := fun hx => hchns m.id hx hmns
      rw [removeItem, if_neg (by simp only [FileNode.id]; exact fun he => hmid he.symm),
        removeNode]
      rw [removeItem_noop m.id ch hmidch]
      have hinm : i ∉ idsOfF m := fun hx => hins (hsub i hx)
      have hchm : ∀ y, y ∈ idsOf ch → y ∉ idsOfF m := fun y hy hx =>
        hchns y hy (hsub y hx)
      simp only [idsOf, idsOfF, List.cons_append, List.mem_cons, List.mem_append]
      rw [ih hnd2 hm x]
      constructor
      · rintro (hx | hx | ⟨hx, hni⟩)
        · exact ⟨Or.inl hx, fun hc => hinm (hx ▸ hc)⟩
        · exact ⟨Or.inr (Or.inl hx), hchm x hx⟩
        · exact ⟨Or.inr (Or.inr hx), hni⟩
      · rintro ⟨hx | hx | hx, hni⟩
        · exact Or.inl hx
        · exact Or.inr (Or.inl hx)
        · exact Or.inr (Or.inr ⟨hx, hni⟩)

/-- C9: `delete_item` fails with "Item not found" when the path does not
resolve (tree untouched); on success it removes the resolved node together
with its entire subtree — the ids of the target's subtree disappear from
every depth of the tree — while every other id survives, and every node of
the resulting tree is an original node with id, name, type and content
unchanged. -/
theorem claim9_delete_removes_subtree (fileTree : List FileNode) (path : String)
    (elapsed : Nat) :
    (findFileByPath fileTree path = none →
      deleteItem fileTree path elapsed =
        (errRes ("Item not found: " ++ path) elapsed, fileTree)) ∧
    (∀ target, (idsOf fileTree).Nodup →
      findFileByPath fileTree path = some target →
      (deleteItem fileTree path elapsed).1.success = true ∧
      (∀ x, x ∈ idsOf (deleteItem fileTree path elapsed).2 ↔
        (x ∈ idsOf fileTree ∧ x ∉ idsOfF target)) ∧
      (∀ n' ∈ allNodes (deleteItem fileTree path elapsed).2, ∃ n ∈ allNodes fileTree,
        n'.id = n.id ∧ n'.name = n.name ∧ n'.ntype = n.ntype ∧ n'.content = n.content)) := by
  constructor
  · intro h
    unfold deleteItem
    rw [h]
  · intro target hnd hfind
    have hmem : target ∈ allNodes fileTree := findByParts_mem _ _ _ hfind
    unfold deleteItem
    rw [hfind]
    exact ⟨rfl, removeItem_ids fileTree target hnd hmem, removeItem_preserves _ _⟩

/-- Witness for C9 at a concrete input: deleting the nested file `B/x`
removes `id_x` and keeps `id_B`. -/
theorem claim9_witness :
    (deleteItem demoTreeBx "B/x" 3).1.success = true ∧
    ("id_x" ∈ idsOf (deleteItem demoTreeBx "B/x" 3).2 ↔
      ("id_x" ∈ idsOf demoTreeBx ∧
        "id_x" ∉ idsOfF (FileNode.mk "id_x" "x" NodeType.file (some "hello") none none))) ∧
    ("id_B" ∈ idsOf (deleteItem demoTreeBx "B/x" 3).2 ↔
      ("id_B" ∈ idsOf demoTreeBx ∧
        "id_B" ∉ idsOfF (FileNode.mk "id_x" "x" NodeType.file (some "hello") none none))) := by
  have h := (claim9_delete_removes_subtree demoTreeBx "B/x" 3).2
    (FileNode.mk "id_x" "x" NodeType.file (some "hello") none none) (by decide) rfl
  exact ⟨h.1, h.2.1 "id_x", h.2.1 "id_B"⟩

/-- `List.range'` with unit step, split after the first element. -/
theorem range'_succ_one (s n : Nat) : List.range' s (n + 1) = s :: List.range' (s + 1) n := by
  simp [List.range'_succ s n 1]

/-- `List.range'` with unit step, concatenation of adjacent blocks. -/
theorem range'_append_one (s m n : Nat) :
    List.range' s m ++ List.range' (s + m) n = List.range' s (m + n) := by
  have h := List.range'_append s m n 1
  simp only [Nat.mul_one, Nat.one_mul, Nat.add_comm] at h
  exact h

/-- The id supply threaded through `cloneFileNode`: cloning a forest starting
at counter `k` consumes exactly its node count and hands out the ids
`gen k, gen (k+1), …` in preorder. -/
theorem cloneList_ids (gen : Nat → String) (ns : List FileNode) :
    ∀ k, (cloneList gen k ns).2 = k + sizeL ns ∧
      idsOf (cloneList gen k ns).1 = (List.range' k (sizeL ns)).map gen := by
  induction ns using forest_ind with
  | hnil => intro k; simp [cloneList, sizeL, idsOf]
  | hnone i nm ty co ex ns ih =>
    intro k
    have hns := ih (k + 1)
    simp only [cloneList, cloneNode, sizeL, sizeF, idsOf, idsOfF]
    refine ⟨by rw [hns.1]; omega, ?_⟩
    rw [hns.2, Nat.add_comm 1 (sizeL ns), range'_succ_one]
    simp
  | hsome i nm ty co ch ex ns ihch ih =>
    intro k
    have hch := ihch (k + 1)
    have hns := ih (k + 1 + sizeL ch)
    simp only [cloneList, cloneNode, sizeL, sizeF, idsOf, idsOfF]
    rw [hch.1]
    refine ⟨by rw [hns.1]; omega, ?_⟩
    rw [hch.2, hns.2]
    have h1 : (1 : Nat) + sizeL ch + sizeL ns = (1 + sizeL ch) + sizeL ns := by omega
    rw [h1, ← range'_append_one k (1 + sizeL ch) (sizeL ns)]
    rw [Nat.add_comm 1 (sizeL ch), range'_succ_one]
    simp only [List.map_append, List.map_cons, List.cons_append]
    rw [show k + (sizeL ch + 1) = k + 1 + sizeL ch by omega]

/-- Cloning preserves everything but the ids: erasing ids of the clone gives
back the erased original. -/
theorem cloneList_shape (gen : Nat → String) (ns : List FileNode) :
    ∀ k, eraseIdsL (cloneList gen k ns).1 = eraseIdsL ns := by
  induction ns using forest_ind with
  | hnil => intro k; simp [cloneList]
  | hnone i nm ty co ex ns ih =>
    intro k
    simp only [cloneList, cloneNode, eraseIdsL, eraseIdsF]
    rw [ih (k + 1)]
  | hsome i nm ty co ch ex ns ihch ih =>
    intro k
    simp only [cloneList, cloneNode, eraseIdsL, eraseIdsF]
    rw [ihch (k + 1), ih ((cloneList gen (k + 1) ch).2)]

/-- Ids of a concatenated forest. -/
theorem idsOf_append (a b : List FileNode) : idsOf (a ++ b) = idsOf a ++ idsOf b := by
  induction a with
  | nil => simp [idsOf]
  | cons n a ih =>
    simp [idsOf, ih, List.append_assoc]

/-- `withName` does not change a subtree's ids. -/
theorem idsOfF_withName (n : FileNode) (nm : String) : idsOfF (n.withName nm) = idsOfF n := by
  cases n with
  | mk i nm' ty co ch ex => cases ch <;> simp [FileNode.withName, idsOfF]

/-- `withName` commutes with id erasure. -/
theorem eraseIdsF_withName (n : FileNode) (nm : String) :
    eraseIdsF (n.withName nm) = (eraseIdsF n).withName nm := by
  cases n with
  | mk i nm' ty co ch ex => cases ch <;> simp [FileNode.withName, eraseIdsF]

/-- The name set by `withName`. -/
theorem name_withName (n : FileNode) (nm : String) : (n.withName nm).name = nm := by
  cases n with
  | mk i nm' ty co ch ex => simp [FileNode.withName, FileNode.name]

/-- Node-level corollary of `cloneList_ids`: the clone's subtree ids are the
supply's block starting at `k`. -/
theorem cloneNode_ids (gen : Nat → String) (n : FileNode) (k : Nat) :
    idsOfF (cloneNode gen k n).1 = (List.range' k (sizeF n)).map gen := by
  have h := (cloneList_ids gen [n] k).2
  simp only [cloneList, sizeL, idsOf, List.append_nil] at h
  simpa using h

/-- Node-level corollary of `cloneList_shape`. -/
theorem cloneNode_shape (gen : Nat → String) (n : FileNode) (k : Nat) :
    eraseIdsF (cloneNode gen k n).1 = eraseIdsF n := by
  have h := cloneList_shape gen [n] k
  simp only [cloneList, eraseIdsL] at h
  exact ((List.cons.injEq _ _ _ _).mp h).1

/-- Ids of the tree after `addCopiedItem`'s non-root `map`: everything comes
from the original nodes or from the copied subtree. -/
theorem addCopiedItemMap_ids_sub (full : List FileNode) (targetPath : String)
    (copied : FileNode) (ns : List FileNode) :
    ∀ x ∈ idsOf (addCopiedItemMap full targetPath copied ns),
      x ∈ idsOf ns ∨ x ∈ idsOfF copied := by
  induction ns using forest_ind with
  | hnil => simp [addCopiedItemMap, idsOf]
  | hnone i nm ty co ex ns ih =>
    intro x hx
    rw [addCopiedItemMap, addCopiedItemF] at hx
    simp only [idsOf, List.mem_append] at hx
    simp only [idsOf, idsOfF, List.cons_append, List.nil_append, List.mem_cons,
      List.mem_append]
    rcases hx with hx | hx
    · split at hx
      · simp only [idsOfF, idsOf, List.append_nil, List.mem_cons] at hx
        rcases hx with hx | hx
        · exact Or.inl (Or.inl hx)
        · exact Or.inr hx
      · simp only [idsOfF, List.mem_singleton] at hx
        exact Or.inl (Or.inl hx)
    · rcases ih x hx with h | h
      · exact Or.inl (Or.inr h)
      · exact Or.inr h
  | hsome i nm ty co ch ex ns ihch ih =>
    intro x hx
    rw [addCopiedItemMap, addCopiedItemF] at hx
    simp only [idsOf, List.mem_append] at hx
    simp only [idsOf, idsOfF, List.cons_append, List.mem_cons, List.mem_append]
    rcases hx with hx | hx
    · split at hx
      · simp only [idsOfF, idsOf_append, idsOf, List.append_nil, List.mem_cons,
          List.mem_append] at hx
        rcases hx with hx | hx | hx
        · exact Or.inl (Or.inl hx)
        · exact Or.inl (Or.inr (Or.inl hx))
        · exact Or.inr hx
      · simp only [idsOfF, List.mem_cons] at hx
        rcases hx with hx | hx
        · exact Or.inl (Or.inl hx)
        · rcases ihch x hx with h | h
          · exact Or.inl (Or.inr (Or.inl h))
          · exact Or.inr h
    · rcases ih x hx with h | h
      · exact Or.inl (Or.inr (Or.inr h))
      · exact Or.inr h

/-- Ids after `addCopiedItem` (root or nested target): everything comes from
the original tree or from the copied subtree. -/
theorem addCopiedItemL_ids_sub (full : List FileNode) (targetPath : String)
    (copied : FileNode) (ns : List FileNode) :
    ∀ x ∈ idsOf (addCopiedItemL full targetPath copied ns),
      x ∈ idsOf ns ∨ x ∈ idsOfF copied := by
  intro x hx
  rw [addCopiedItemL] at hx
  split at hx
  · rw [idsOf_append] at hx
    rcases List.mem_append.mp hx with h | h
    · exact Or.inl h
    · simp only [idsOf, List.append_nil] at h
      exact Or.inr h
  · exact addCopiedItemMap_ids_sub full targetPath copied ns x hx

/-- The tree returned by a successful `copy_item` is the original tree with
the renamed deep clone inserted by `addCopiedItem`. -/
theorem copyItemTool_snd_of_success (fileTree : List FileNode)
    (sourcePath targetPath : String) (newName : Option String) (gen : Nat → String)
    (elapsed : Nat) (sourceItem : FileNode)
    (hfind : findFileByPath fileTree sourcePath = some sourceItem)
    (hsucc : (copyItemTool fileTree sourcePath targetPath newName gen elapsed).1.success
      = true) :
    (copyItemTool fileTree sourcePath targetPath newName gen elapsed).2 =
      addCopiedItemL fileTree targetPath
        (((cloneNode gen 0 sourceItem).1).withName (jsOrStr newName sourceItem.name))
        fileTree := by
  simp only [copyItemTool, copyAfterTargetCheck, hfind] at hsucc ⊢
  by_cases hnr : targetPath ≠ "" ∧ targetPath ≠ "/"
  · rw [if_pos hnr] at hsucc ⊢
    cases hd : findFileByPath fileTree targetPath with
    | none =>
      simp [errRes, hd] at hsucc
    | some td =>
      simp only [hd] at hsucc ⊢
      by_cases htd : td.ntype ≠ NodeType.folder
      · rw [if_pos htd] at hsucc
        simp [errRes] at hsucc
      · rw [if_neg htd] at hsucc ⊢
        by_cases hc : ((td.children.getD []).any
            (fun n => n.name = jsOrStr newName sourceItem.name)) = true
        · rw [if_pos hc] at hsucc
          simp [errRes] at hsucc
        · rw [if_neg hc]
  · rw [if_neg hnr] at hsucc ⊢
    by_cases hc : (fileTree.any (fun n => n.name = jsOrStr newName sourceItem.name)) = true
    · rw [if_pos hc] at hsucc
      simp [errRes] at hsucc
    · rw [if_neg hc]

/-- C7 (amended): for every successful `copy_item` whose id supply is fresh
and collision-free on the block it draws from, the inserted deep clone
carries pairwise-distinct new ids, none of which occurs anywhere in the
original tree (in particular each differs from the source's id and from
every other pre-existing id); every id of the resulting tree comes from the
original tree or from the clone; the clone preserves every node's name,
type and content (only ids change), except the top-level name, which equals
`newName` whenever a *non-empty* `newName` is supplied — a supplied empty
`newName` is treated as absent, see the counterexample. -/
theorem claim7_copy_amended (fileTree : List FileNode) (sourcePath targetPath : String)
    (newName : Option String) (gen : Nat → String) (elapsed : Nat) (sourceItem : FileNode)
    (hfind : findFileByPath fileTree sourcePath = some sourceItem)
    (hinj : ∀ j, j < sizeF sourceItem → ∀ k, k < sizeF sourceItem → gen j = gen k → j = k)
    (hfresh : ∀ k, k < sizeF sourceItem → gen k ∉ idsOf fileTree)
    (hsucc : (copyItemTool fileTree sourcePath targetPath newName gen elapsed).1.success
      = true) :
    ∀ copied, copied =
      ((cloneNode gen 0 sourceItem).1).withName (jsOrStr newName sourceItem.name) →
    (idsOfF copied).Nodup ∧
    (∀ x ∈ idsOfF copied, x ∉ idsOf fileTree) ∧
    sourceItem.id ∈ idsOf fileTree ∧
    (∀ x ∈ idsOf (copyItemTool fileTree sourcePath targetPath newName gen elapsed).2,
      x ∈ idsOf fileTree ∨ x ∈ idsOfF copied) ∧
    eraseIdsF copied = (eraseIdsF sourceItem).withName (jsOrStr newName sourceItem.name) ∧
    (∀ nm', newName = some nm' → nm' ≠ "" → copied.name = nm') := by
  intro copied hcopied
  have hids : idsOfF copied = (List.range' 0 (sizeF sourceItem)).map gen := by
    rw [hcopied, idsOfF_withName, cloneNode_ids]
  have hmemlt : ∀ j, j ∈ List.range' 0 (sizeF sourceItem) → j < sizeF sourceItem := by
    intro j hj
    have := List.mem_range'_1.mp hj
    omega
  refine ⟨?_, ?_, ?_, ?_, ?_, ?_⟩
  · rw [hids]
    refine List.Nodup.map_on ?_ (List.nodup_range' _ _ _)
    intro j hj k hk he
    exact hinj j (hmemlt j hj) k (hmemlt k hk) he
  · intro x hx
    rw [hids] at hx
    obtain ⟨j, hj, rfl⟩ := List.mem_map.mp hx
    exact hfresh j (hmemlt j hj)
  · exact id_mem_idsOf fileTree sourceItem (findByParts_mem _ _ _ hfind)
  · intro x hx
    rw [copyItemTool_snd_of_success fileTree sourcePath targetPath newName gen elapsed
      sourceItem hfind hsucc, ← hcopied] at hx
    exact addCopiedItemL_ids_sub fileTree targetPath copied fileTree x hx
  · rw [hcopied, eraseIdsF_withName, cloneNode_shape]
  · intro nm' hn hne
    rw [hcopied, hn, name_withName]
    simp [jsOrStr, hne]

/-- Witness for C7 at a concrete input: copying the nested file `B/x` to
the root under the fresh supply `demoGen` with `newName = "y"`. -/
theorem claim7_witness :
    ("fresh_0" ∉ idsOf demoTreeBx) ∧
    (∀ x ∈ idsOf (copyItemTool demoTreeBx "B/x" "" (some "y") demoGen 4).2,
      x ∈ idsOf demoTreeBx ∨
        x ∈ idsOfF (((cloneNode demoGen 0
          (FileNode.mk "id_x" "x" NodeType.file (some "hello") none none)).1).withName "y")) ∧
    ((((cloneNode demoGen 0
        (FileNode.mk "id_x" "x" NodeType.file (some "hello") none none)).1).withName
          "y").name = "y") := by
  have h := claim7_copy_amended demoTreeBx "B/x" "" (some "y") demoGen 4
    (FileNode.mk "id_x" "x" NodeType.file (some "hello") none none)
    rfl (by decide) (by decide) rfl _ rfl
  exact ⟨fun hc => h.2.1 "fresh_0" (by decide) hc, h.2.2.2.1, h.2.2.2.2.2 "y" rfl (by decide)⟩

/-- `modifyText`'s `updateFile` is a map over the forest. -/
theorem updContentL_eq_map (tid c : String) (ns : List FileNode) :
    updContentL tid c ns = ns.map (updContentF tid c) := by
  induction ns with
  | nil => simp [updContentL]
  | cons n ns ih => simp [updContentL, ih]

/-- `updateFile` keeps every node's name. -/
theorem updContentF_name (tid c : String) (n : FileNode) :
    (updContentF tid c n).name = n.name := by
  cases n with
  | mk i nm ty co ch ex => cases ch <;> rw [updContentF] <;> split <;> rfl

/-- `updateFile` keeps every node's type. -/
theorem updContentF_ntype (tid c : String) (n : FileNode) :
    (updContentF tid c n).ntype = n.ntype := by
  cases n with
  | mk i nm ty co ch ex => cases ch <;> rw [updContentF] <;> split <;> rfl

/-- `updateFile` on the target node replaces its content in place. -/
theorem updContentF_self (c : String) (n : FileNode) :
    updContentF n.id c n = n.withContent (some c) := by
  cases n with
  | mk i nm ty co ch ex =>
    cases ch <;> simp [updContentF, FileNode.id, FileNode.withContent]

/-- Resolution after `modifyText`'s `updateFile`: with globally distinct
ids, a path that resolved to `n` resolves in the rewritten tree to the
rewritten `n`. -/
theorem findByParts_updContent (c : String) :
    ∀ (parts : List String) (ns : List FileNode) (n : FileNode),
      (idsOf ns).Nodup → findByParts ns parts = some n →
      findByParts (updContentL n.id c ns) parts = some (updContentF n.id c n)
  | [], ns, n => by simp [findByParts]
  | [p], ns, n => by
    intro hnd h
    simp only [findByParts] at h ⊢
    rw [updContentL_eq_map]
    rw [List.find?_map]
    have hpred : (fun x => decide (x.name = p)) ∘ updContentF n.id c =
        fun x => decide (x.name = p) := by
      funext x
      simp [Function.comp, updContentF_name]
    rw [hpred, h]
    rfl
  | p :: q :: ps, ns, n => by
    intro hnd h
    simp only [findByParts] at h ⊢
    cases hf : ns.find? (fun x => x.name = p) with
    | none => simp [hf] at h
    | some m =>
      rw [hf] at h
      have hm : m ∈ ns := List.mem_of_find?_eq_some hf
      rw [updContentL_eq_map, List.find?_map]
      have hpred : (fun x => decide (x.name = p)) ∘ updContentF n.id c =
          fun x => decide (x.name = p) := by
        funext x
        simp [Function.comp, updContentF_name]
      rw [hpred, hf]
      cases m with
      | mk i nm ty co ch ex =>
        cases ty with
        | file => simp [FileNode.ntype] at h
        | folder =>
          cases ch with
          | none => simp [FileNode.ntype, FileNode.children] at h
          | some ch =>
            simp only [FileNode.ntype, FileNode.children] at h
            rw [if_pos trivial] at h
            have hndF : (idsOfF (FileNode.mk i nm NodeType.folder co (some ch) ex)).Nodup :=
              ((idsOfF_infixOf ns _ hm).sublist).nodup hnd
            simp only [idsOfF] at hndF
            have hni : n.id ≠ i := by
              intro he
              have := id_mem_idsOf ch n (findByParts_mem _ _ _ h)
              rw [he] at this
              exact hndF.not_mem this
            dsimp only [Option.map]
            rw [show updContentF n.id c (FileNode.mk i nm NodeType.folder co (some ch) ex) =
              (if i = n.id then FileNode.mk i nm NodeType.folder (some c) (some ch) ex
               else FileNode.mk i nm NodeType.folder co
                 (some (updContentL n.id c ch)) ex) from by
              rw [updContentF]]
            rw [if_neg (show ¬ i = n.id from fun he => hni he.symm)]
            simp only [FileNode.ntype, FileNode.children]
            rw [if_pos trivial]
            exact findByParts_updContent c (q :: ps) ch n hndF.of_cons h

/-- A Bool-level prefix splits the list. -/
theorem isPrefixL_drop : ∀ (pat l : List Char), isPrefixL pat l = true →
    l = pat ++ l.drop pat.length
  | [], l => by simp
  | p :: ps, [] => by simp [isPrefixL]
  | p :: ps, c :: cs => by
    intro h
    simp only [isPrefixL, Bool.and_eq_true, decide_eq_true_eq] at h
    have := isPrefixL_drop ps cs h.2
    simp only [List.length_cons, List.cons_append, List.drop_succ_cons]
    rw [h.1]
    exact congrArg (c :: ·) this

/-- `split(pat)` never returns an empty segment list. -/
theorem splitSubAux_ne_nil (p : Char) (ps : List Char) :
    ∀ l, splitSubAux p ps l ≠ [] := by
  intro l
  induction l using splitSubAux.induct p ps with
  | case1 => simp [splitSubAux]
  | case2 c cs hpre ih => simp [splitSubAux, hpre]
  | case3 c cs hpre hnil ih => exact absurd hnil ih
  | case4 c cs hpre seg rest hsr ih => simp [splitSubAux, hpre, hsr]

/-- `split(pat).join(repl)` replaces every non-overlapping occurrence of the
(non-empty) pattern, scanning left to right: the implementation's
split-and-join equals the specification-level scan. -/
theorem join_split_eq_scan (p : Char) (ps repl : List Char) :
    ∀ l, joinSepL repl (splitSubAux p ps l) = replaceScanL p ps repl l := by
  intro l
  induction l using splitSubAux.induct p ps with
  | case1 => simp [splitSubAux, joinSepL, replaceScanL]
  | case2 c cs hpre ih =>
    obtain ⟨r1, rrest, hsd⟩ : ∃ r1 rrest,
        splitSubAux p ps (cs.drop ps.length) = r1 :: rrest := by
      cases h : splitSubAux p ps (cs.drop ps.length) with
      | nil => exact absurd h (splitSubAux_ne_nil p ps _)
      | cons a b => exact ⟨a, b, rfl⟩
    rw [show splitSubAux p ps (c :: cs) = [] :: splitSubAux p ps (cs.drop ps.length) from by
      rw [splitSubAux]
      rw [if_pos hpre]]
    rw [replaceScanL, if_pos hpre, ← ih, hsd]
    rfl
  | case3 c cs hpre hnil ih => exact absurd hnil (splitSubAux_ne_nil p ps cs)
  | case4 c cs hpre seg rest hsr ih =>
    rw [show splitSubAux p ps (c :: cs) = (c :: seg) :: rest from by
      rw [splitSubAux]
      rw [if_neg hpre, hsr]]
    rw [replaceScanL, if_neg hpre, ← ih, hsr]
    cases rest with
    | nil => rfl
    | cons r rs => rfl

/-- `String.prototype.replace` replaces exactly the first occurrence of a
non-empty pattern: the content decomposes around the leftmost occurrence,
before which the pattern matches nowhere, and that occurrence alone is
replaced by the substituted replacement (generalised over the already
scanned prefix `seen`). -/
theorem replaceFirstSub_go (p : Char) (ps repl : List Char) :
    ∀ l seen, occursL (p :: ps) l = true →
      ∃ pre post, l = pre ++ (p :: ps) ++ post ∧
        replaceFirstSubAux (p :: ps) repl seen l =
          pre ++ getSubstitution (p :: ps) (seen.reverse ++ pre) post repl ++ post ∧
        ∀ k, k < pre.length → isPrefixL (p :: ps) (l.drop k) = false := by
  intro l
  induction l with
  | nil => intro seen h; simp [occursL, isPrefixL] at h
  | cons c cs ih =>
    intro seen h
    by_cases hpre : isPrefixL (p :: ps) (c :: cs) = true
    · refine ⟨[], (c :: cs).drop (p :: ps).length, ?_, ?_, ?_⟩
      · simpa using isPrefixL_drop _ _ hpre
      · rw [replaceFirstSubAux, if_pos hpre]
        simp
      · simp
    · have hocc : occursL (p :: ps) cs = true := by
        rw [occursL, Bool.or_eq_true] at h
        exact h.resolve_left hpre
      obtain ⟨pre, post, h1, h2, h3⟩ := ih (c :: seen) hocc
      refine ⟨c :: pre, post, by simp [h1], ?_, ?_⟩
      · rw [replaceFirstSubAux, if_neg hpre, h2]
        simp [List.append_assoc]
      · intro k hk
        cases k with
        | zero => simpa using (Bool.not_eq_true _).mp hpre
        | succ k =>
          simp only [List.drop_succ_cons]
          exact h3 k (by simpa using hk)

/-- `replaceFirstSub_go` at the start of the content: the `` $` `` portion
seen by the substitution is exactly the part before the match. -/
theorem replaceFirstSub_spec (p : Char) (ps repl l : List Char)
    (h : occursL (p :: ps) l = true) :
    ∃ pre post, l = pre ++ (p :: ps) ++ post ∧
      replaceFirstSubAux (p :: ps) repl [] l =
        pre ++ getSubstitution (p :: ps) pre post repl ++ post ∧
      ∀ k, k < pre.length → isPrefixL (p :: ps) (l.drop k) = false := by
  have hgo := replaceFirstSub_go p ps repl l [] h
  simpa using hgo

/-- `s.replace("", repl)` matches at position 0 with an empty matched text:
the substituted replacement is prepended to the unchanged content. -/
theorem replaceFirstSub_empty (repl : List Char) :
    ∀ l, replaceFirstSubAux [] repl [] l = getSubstitution [] [] l repl ++ l
  | [] => by
    rw [replaceFirstSubAux]
    simp [isPrefixL]
  | c :: cs => by
    rw [replaceFirstSubAux]
    simp [isPrefixL]

/-- An empty pattern occurs in every string. -/
theorem occursL_nil : ∀ l, occursL [] l = true
  | [] => rfl
  | _ :: _ => by simp [occursL, isPrefixL]

/-- `{...node, content}` carries the new content. -/
theorem content_withContent (n : FileNode) (c : Option String) :
    (n.withContent c).content = c := by
  cases n with
  | mk i nm ty co ch ex => rfl

/-- C5: `modify_text` in `findText` mode on an existing file: when `findText`
is absent from the current content the call fails with the quoted
"Text not found" error and the tree (hence the file's content) is returned
unchanged; when it occurs, `replaceAll = true` rewrites the content to the
left-to-right scan replacing every non-overlapping occurrence (split/join
performs no `$`-substitution), and `replaceAll = false` replaces exactly the
first occurrence — the content splits around the leftmost match, before
which the pattern matches nowhere, and the replacement undergoes JS
`GetSubstitution`; an empty `findText` (accepted by the `!== undefined`
check) splits into single characters under `replaceAll = true` and matches
at position 0 under `replaceAll = false`; concretely, on a file `test.txt`
with content `"A"`, the call with `findText "A"`, `replaceText "B"`,
`replaceAll false` leaves the resolved content `"B"`, and repeating the
identical call fails with the not-found error and an unchanged tree. -/
theorem claim5_modify_text_find_replace
    (fileTree : List FileNode) (filePath ft rt : String) (target : FileNode)
    (e1 e2 : Nat)
    (hnd : (idsOf fileTree).Nodup)
    (hfind : findFileByPath fileTree filePath = some target)
    (hfile : target.ntype = NodeType.file) :
    (strIncludes (target.content.getD "") ft = false →
      ∀ replaceAll,
        modifyText fileTree filePath none (some ft) (some rt) replaceAll e1 =
          (errRes ("Text not found in file: \"" ++ ft ++ "\"") e1, fileTree)) ∧
    (∀ p ps, ft.data = p :: ps →
      strIncludes (target.content.getD "") ft = true →
      (modifyText fileTree filePath none (some ft) (some rt) true e1).1.success = true ∧
      (findFileByPath (modifyText fileTree filePath none (some ft) (some rt) true e1).2
          filePath).map FileNode.content =
        some (some (String.mk
          (replaceScanL p ps rt.data (target.content.getD "").data)))) ∧
    (∀ p ps, ft.data = p :: ps →
      strIncludes (target.content.getD "") ft = true →
      (modifyText fileTree filePath none (some ft) (some rt) false e1).1.success = true ∧
      ∃ pre post,
        (target.content.getD "").data = pre ++ (p :: ps) ++ post ∧
        (findFileByPath (modifyText fileTree filePath none (some ft) (some rt) false e1).2
            filePath).map FileNode.content =
          some (some (String.mk
            (pre ++ getSubstitution (p :: ps) pre post rt.data ++ post))) ∧
        (∀ k, k < pre.length →
          isPrefixL (p :: ps) ((target.content.getD "").data.drop k) = false)) ∧
    (ft.data = [] →
      (modifyText fileTree filePath none (some ft) (some rt) true e1).1.success = true ∧
      (findFileByPath (modifyText fileTree filePath none (some ft) (some rt) true e1).2
          filePath).map FileNode.content =
        some (some (String.mk
          (joinSepL rt.data ((target.content.getD "").data.map (fun ch => [ch])))))) ∧
    (ft.data = [] →
      (modifyText fileTree filePath none (some ft) (some rt) false e1).1.success = true ∧
      (findFileByPath (modifyText fileTree filePath none (some ft) (some rt) false e1).2
          filePath).map FileNode.content =
        some (some (String.mk
          (getSubstitution [] [] (target.content.getD "").data rt.data ++
            (target.content.getD "").data)))) ∧
    ((modifyText demoTreeTest "test.txt" none (some "A") (some "B") false e1).1.success
        = true ∧
      (findFileByPath
          (modifyText demoTreeTest "test.txt" none (some "A") (some "B") false e1).2
          "test.txt").map FileNode.content = some (some "B") ∧
      modifyText
          (modifyText demoTreeTest "test.txt" none (some "A") (some "B") false e1).2
          "test.txt" none (some "A") (some "B") false e2 =
        (errRes ("Text not found in file: \"A\"") e2,
         (modifyText demoTreeTest "test.txt" none (some "A") (some "B") false e1).2)) := by
  have hstepA : ∀ (b : Bool),
      modifyText fileTree filePath none (some ft) (some rt) b e1 =
        if strIncludes (target.content.getD "") ft = false then
          (errRes ("Text not found in file: \"" ++ ft ++ "\"") e1, fileTree)
        else
          modifySuccess fileTree filePath target (target.content.getD "")
            (if b then jsSplitJoin (target.content.getD "") ft rt
             else jsReplaceFirst (target.content.getD "") ft rt)
            "find_replace" (some ft) (some rt) e1 := by
    intro b
    unfold modifyText
    simp only [hfind]
    rw [if_neg (show ¬ target.ntype ≠ NodeType.file from fun h => h hfile)]
  refine ⟨?_, ?_, ?_, ?_, ?_, ?_⟩
  · intro hocc replaceAll
    rw [hstepA replaceAll, if_pos hocc]
  · intro p ps hft hocc
    have hne : ¬ strIncludes (target.content.getD "") ft = false := by
      rw [hocc]
      exact fun h => Bool.noConfusion h
    have hsj : jsSplitJoin (target.content.getD "") ft rt =
        String.mk (replaceScanL p ps rt.data (target.content.getD "").data) := by
      simp only [jsSplitJoin, hft]
      rw [join_split_eq_scan]
    constructor
    · rw [hstepA true, if_neg hne]
      rfl
    · rw [hstepA true, if_neg hne]
      have h2 : (modifySuccess fileTree filePath target (target.content.getD "")
          (if true then jsSplitJoin (target.content.getD "") ft rt
           else jsReplaceFirst (target.content.getD "") ft rt)
          "find_replace" (some ft) (some rt) e1).2 =
          updContentL target.id (jsSplitJoin (target.content.getD "") ft rt) fileTree := rfl
      rw [h2]
      unfold findFileByPath
      rw [findByParts_updContent _ _ _ _ hnd hfind]
      dsimp only [Option.map]
      rw [updContentF_self, content_withContent, hsj]
  · intro p ps hft hocc
    have hne : ¬ strIncludes (target.content.getD "") ft = false := by
      rw [hocc]
      exact fun h => Bool.noConfusion h
    have hoccL : occursL (p :: ps) (target.content.getD "").data = true := by
      have h := hocc
      unfold strIncludes at h
      rw [hft] at h
      exact h
    obtain ⟨pre, post, hdec, hrep, hmin⟩ := replaceFirstSub_spec p ps rt.data _ hoccL
    have hrf : jsReplaceFirst (target.content.getD "") ft rt =
        String.mk (pre ++ getSubstitution (p :: ps) pre post rt.data ++ post) := by
      unfold jsReplaceFirst
      rw [hft, hrep]
    refine ⟨?_, pre, post, hdec, ?_, hmin⟩
    · rw [hstepA false, if_neg hne]
      rfl
    · rw [hstepA false, if_neg hne]
      have h2 : (modifySuccess fileTree filePath target (target.content.getD "")
          (if false then jsSplitJoin (target.content.getD "") ft rt
           else jsReplaceFirst (target.content.getD "") ft rt)
          "find_replace" (some ft) (some rt) e1).2 =
          updContentL target.id (jsReplaceFirst (target.content.getD "") ft rt) fileTree := rfl
      rw [h2]
      unfold findFileByPath
      rw [findByParts_updContent _ _ _ _ hnd hfind]
      dsimp only [Option.map]
      rw [updContentF_self, content_withContent, hrf]
  · intro hft0
    have hne : ¬ strIncludes (target.content.getD "") ft = false := by
      unfold strIncludes
      rw [hft0, occursL_nil]
      exact fun h => Bool.noConfusion h
    have hsj : jsSplitJoin (target.content.getD "") ft rt =
        String.mk (joinSepL rt.data
          ((target.content.getD "").data.map (fun ch => [ch]))) := by
      simp only [jsSplitJoin, hft0]
    constructor
    · rw [hstepA true, if_neg hne]
      rfl
    · rw [hstepA true, if_neg hne]
      have h2 : (modifySuccess fileTree filePath target (target.content.getD "")
          (if true then jsSplitJoin (target.content.getD "") ft rt
           else jsReplaceFirst (target.content.getD "") ft rt)
          "find_replace" (some ft) (some rt) e1).2 =
          updContentL target.id (jsSplitJoin (target.content.getD "") ft rt) fileTree := rfl
      rw [h2]
      unfold findFileByPath
      rw [findByParts_updContent _ _ _ _ hnd hfind]
      dsimp only [Option.map]
      rw [updContentF_self, content_withContent, hsj]
  · intro hft0
    have hne : ¬ strIncludes (target.content.getD "") ft = false := by
      unfold strIncludes
      rw [hft0, occursL_nil]
      exact fun h => Bool.noConfusion h
    have hrf : jsReplaceFirst (target.content.getD "") ft rt =
        String.mk (getSubstitution [] [] (target.content.getD "").data rt.data ++
          (target.content.getD "").data) := by
      unfold jsReplaceFirst
      rw [hft0, replaceFirstSub_empty]
    constructor
    · rw [hstepA false, if_neg hne]
      rfl
    · rw [hstepA false, if_neg hne]
      have h2 : (modifySuccess fileTree filePath target (target.content.getD "")
          (if false then jsSplitJoin (target.content.getD "") ft rt
           else jsReplaceFirst (target.content.getD "") ft rt)
          "find_replace" (some ft) (some rt) e1).2 =
          updContentL target.id (jsReplaceFirst (target.content.getD "") ft rt) fileTree := rfl
      rw [h2]
      unfold findFileByPath
      rw [findByParts_updContent _ _ _ _ hnd hfind]
      dsimp only [Option.map]
      rw [updContentF_self, content_withContent, hrf]
  · exact ⟨rfl, rfl, rfl⟩

/-- Concrete run of C5's scenario: on the one-file workspace `test.txt`
containing `"A"`, a first `modify_text` with `findText "A"`, `replaceText
"B"`, `replaceAll false` succeeds and the file resolves to content `"B"`;
the identical second call fails with the not-found error and leaves the
tree unchanged. -/
theorem claim5_witness :
    (idsOf demoTreeTest).Nodup ∧
    ((modifyText demoTreeTest "test.txt" none (some "A") (some "B") false 0).1.success
        = true ∧
      (findFileByPath
          (modifyText demoTreeTest "test.txt" none (some "A") (some "B") false 0).2
          "test.txt").map FileNode.content = some (some "B") ∧
      modifyText
          (modifyText demoTreeTest "test.txt" none (some "A") (some "B") false 0).2
          "test.txt" none (some "A") (some "B") false 1 =
        (errRes ("Text not found in file: \"A\"") 1,
         (modifyText demoTreeTest "test.txt" none (some "A") (some "B") false 0).2)) :=
  ⟨by decide,
   (claim5_modify_text_find_replace demoTreeTest "test.txt" "A" "B"
      (FileNode.mk "id_t" "test.txt" NodeType.file (some "A") none none) 0 1
      (by decide) rfl rfl).2.2.2.2.2⟩

/-- An unsettled call has no settle record. -/
theorem settleOf_eq_none (st : ChanState) (cid : Nat) (h : isSettled st cid = false) :
    settleOf st cid = none := by
  unfold isSettled at h
  unfold settleOf
  rw [List.find?_eq_none]
  intro s hs
  rw [List.any_eq_false] at h
  exact h s hs

/-- A timer firing never disturbs an existing settle record. -/
theorem fireTimer_settleOf_some (st : ChanState) (tr : PendTimer) (cid : Nat)
    (s : Settled) (h : settleOf st cid = some s) :
    settleOf (fireTimer st tr) cid = some s := by
  unfold fireTimer
  split
  · exact h
  · unfold settleOf at h ⊢
    dsimp only
    rw [List.find?_append, h]
    rfl

/-- A timer of another call cannot settle this one. -/
theorem fireTimer_not_settles (st : ChanState) (tr : PendTimer) (cid : Nat)
    (hne : tr.cid ≠ cid) (h : isSettled st cid = false) :
    isSettled (fireTimer st tr) cid = false := by
  unfold fireTimer
  split
  · exact h
  · unfold isSettled at h ⊢
    dsimp only
    rw [List.any_append, h]
    simp [hne]

/-- Firing a still-pending call's own timer rejects it with the timeout
error, stamped with the timer's deadline. -/
theorem fireTimer_settles (st : ChanState) (tr : PendTimer) (cid : Nat)
    (htr : tr.cid = cid) (h : isSettled st cid = false) :
    settleOf (fireTimer st tr) cid =
      some ⟨tr.cid, tr.deadline, Except.error (timeoutMsg tr.timeout)⟩ := by
  unfold fireTimer
  rw [if_neg (show ¬ isSettled st tr.cid = true from by
    rw [htr, h]
    exact fun hh => Bool.noConfusion hh)]
  unfold settleOf
  dsimp only
  rw [List.find?_append, show List.find? (fun s => decide (s.cid = cid)) st.settled = none
    from settleOf_eq_none st cid h]
  simp [htr]

/-- Folding timer firings over any list keeps an existing settle record. -/
theorem foldl_fireTimer_settleOf_some (cid : Nat) (s : Settled) :
    ∀ (l : List PendTimer) (st : ChanState), settleOf st cid = some s →
      settleOf (l.foldl fireTimer st) cid = some s
  | [], _, h => h
  | tr :: l, st, h =>
    foldl_fireTimer_settleOf_some cid s l _ (fireTimer_settleOf_some st tr cid s h)

/-- Folding firings of other calls' timers keeps a call pending. -/
theorem foldl_fireTimer_none (cid : Nat) :
    ∀ (l : List PendTimer) (st : ChanState), (∀ tr ∈ l, tr.cid ≠ cid) →
      isSettled st cid = false → isSettled (l.foldl fireTimer st) cid = false
  | [], _, _, h => h
  | tr :: l, st, hl, h =>
    foldl_fireTimer_none cid l _ (fun x hx => hl x (List.mem_cons_of_mem tr hx))
      (fireTimer_not_settles st tr cid (hl tr (List.mem_cons_self tr l)) h)

/-- If the only timers of a pending call in the list are copies of its own
timer and that timer is among them, folding the firings rejects the call
with the timeout error at the timer's deadline. -/
theorem foldl_fireTimer_mem (cid tdl tout : Nat) :
    ∀ (l : List PendTimer) (st : ChanState),
      (∀ tr ∈ l, tr.cid = cid → tr = ⟨tdl, cid, tout⟩) →
      isSettled st cid = false → (⟨tdl, cid, tout⟩ : PendTimer) ∈ l →
      settleOf (l.foldl fireTimer st) cid =
        some ⟨cid, tdl, Except.error (timeoutMsg tout)⟩
  | [], _, _, _, hmem => absurd hmem (List.not_mem_nil _)
  | tr :: l, st, hall, h, hmem => by
    by_cases hc : tr.cid = cid
    · have htr : tr = ⟨tdl, cid, tout⟩ := hall tr (List.mem_cons_self tr l) hc
      have hset : settleOf (fireTimer st tr) cid =
          some ⟨cid, tdl, Except.error (timeoutMsg tout)⟩ := by
        rw [fireTimer_settles st tr cid hc h, htr]
      exact foldl_fireTimer_settleOf_some cid _ l _ hset
    · have hmem' : (⟨tdl, cid, tout⟩ : PendTimer) ∈ l := by
        rcases List.mem_cons.mp hmem with he | he
        · exact absurd (congrArg PendTimer.cid he.symm) hc
        · exact he
      exact foldl_fireTimer_mem cid tdl tout l _
        (fun x hx => hall x (List.mem_cons_of_mem tr hx))
        (fireTimer_not_settles st tr cid hc h) hmem'

/-- Delivering a message to one listener keeps an existing settle record. -/
theorem deliverOne_settleOf_some (t : Nat) (m : WMsg) (st : ChanState)
    (c cid : Nat) (s : Settled) (h : settleOf st cid = some s) :
    settleOf (deliverOne t m st c) cid = some s := by
  unfold deliverOne
  cases m with
  | result so se x =>
    dsimp only
    split
    · exact h
    · unfold settleOf at h ⊢
      dsimp only
      rw [List.find?_append, h]
      rfl
  | errorMsg e =>
    dsimp only
    split
    · exact h
    · unfold settleOf at h ⊢
      dsimp only
      rw [List.find?_append, h]
      rfl
  | otherMsg => exact h

/-- Delivering a message to any listener list keeps a settle record. -/
theorem foldl_deliverOne_settleOf_some (t : Nat) (m : WMsg) (cid : Nat) (s : Settled) :
    ∀ (l : List Nat) (st : ChanState), settleOf st cid = some s →
      settleOf (l.foldl (deliverOne t m) st) cid = some s
  | [], _, h => h
  | c :: l, st, h =>
    foldl_deliverOne_settleOf_some t m cid s l _ (deliverOne_settleOf_some t m st c cid s h)

/-- A non-reply (`ready` etc.) message leaves the state untouched. -/
theorem foldl_deliverOne_otherMsg (t : Nat) :
    ∀ (l : List Nat) (st : ChanState), l.foldl (deliverOne t .otherMsg) st = st
  | [], _ => rfl
  | _ :: l, st => foldl_deliverOne_otherMsg t l st

/-- Processing one timeline event keeps an existing settle record. -/
theorem stepEv_settleOf_some (st : ChanState) (e : TEv) (cid : Nat) (s : Settled)
    (h : settleOf st cid = some s) : settleOf (stepEv st e) cid = some s := by
  unfold stepEv fireDue
  have h1 : settleOf ((st.timers.filter (fun tr => tr.deadline ≤ e.time)).foldl
      fireTimer st) cid = some s := foldl_fireTimer_settleOf_some cid s _ st h
  cases hk : e.kind with
  | startRun c T =>
    dsimp only
    unfold settleOf at h1 ⊢
    dsimp only
    exact h1
  | reply m =>
    dsimp only
    unfold deliver
    refine foldl_deliverOne_settleOf_some e.time m cid s _ _ ?_
    unfold settleOf at h1 ⊢
    dsimp only
    exact h1

/-- Settle lookup depends only on the settled list. -/
theorem settleOf_congr (st st' : ChanState) (cid : Nat) (h : st.settled = st'.settled) :
    settleOf st cid = settleOf st' cid := by
  unfold settleOf
  rw [h]

/-- Pending-check depends only on the settled list. -/
theorem isSettled_congr (st st' : ChanState) (cid : Nat) (h : st.settled = st'.settled) :
    isSettled st cid = isSettled st' cid := by
  unfold isSettled
  rw [h]

/-- `fireDue` keeps exactly the not-yet-due timers. -/
theorem fireDue_timers (t : Nat) (st : ChanState) :
    (fireDue t st).timers = st.timers.filter (fun tr => ¬ tr.deadline ≤ t) := rfl

/-- `fireDue`'s settled list is that of folding the due firings. -/
theorem fireDue_settled (t : Nat) (st : ChanState) :
    (fireDue t st).settled =
      ((st.timers.filter (fun tr => tr.deadline ≤ t)).foldl fireTimer st).settled := rfl

/-- `stepEv` on a `startRun` event: fire due timers, then attach the
listener, start the timer, record the start time and post the request. -/
theorem stepEv_startRun (st : ChanState) (t c T : Nat) :
    stepEv st ⟨t, .startRun c T⟩ =
      { fireDue t st with
        listeners := (fireDue t st).listeners ++ [c],
        timers := (fireDue t st).timers ++ [⟨t + T, c, T⟩],
        starts := (fireDue t st).starts ++ [(c, t)],
        posted := (fireDue t st).posted + 1 } := rfl

/-- `stepEv` on a `reply` event: fire due timers, then dispatch. -/
theorem stepEv_reply (st : ChanState) (t : Nat) (m : WMsg) :
    stepEv st ⟨t, .reply m⟩ = deliver t m (fireDue t st) := rfl

/-- One quiet-before-the-deadline event preserves the timeout invariant:
either the call has already settled with its timeout record, or it is
still pending with its own timer (and no other timer of its id) armed. -/
theorem chanInv_step (cid tdl tout : Nat) (e : TEv)
    (hq : e.time < tdl →
      (∀ m, e.kind = TEvKind.reply m → m = WMsg.otherMsg) ∧
      (∀ T', e.kind ≠ TEvKind.startRun cid T'))
    (st : ChanState)
    (h : settleOf st cid = some ⟨cid, tdl, Except.error (timeoutMsg tout)⟩ ∨
      (isSettled st cid = false ∧ (⟨tdl, cid, tout⟩ : PendTimer) ∈ st.timers ∧
        ∀ tr ∈ st.timers, tr.cid = cid → tr = ⟨tdl, cid, tout⟩)) :
    settleOf (stepEv st e) cid = some ⟨cid, tdl, Except.error (timeoutMsg tout)⟩ ∨
      (isSettled (stepEv st e) cid = false ∧
        (⟨tdl, cid, tout⟩ : PendTimer) ∈ (stepEv st e).timers ∧
        ∀ tr ∈ (stepEv st e).timers, tr.cid = cid → tr = ⟨tdl, cid, tout⟩) := by
  rcases h with h | ⟨hus, hmem, hall⟩
  · exact Or.inl (stepEv_settleOf_some st e cid _ h)
  · obtain ⟨t, k⟩ := e
    by_cases ht : tdl ≤ t
    · -- the deadline has passed: `fireDue` rejects the call with its record
      left
      have hdue : settleOf (fireDue t st) cid =
          some ⟨cid, tdl, Except.error (timeoutMsg tout)⟩ := by
        have hfold := foldl_fireTimer_mem cid tdl tout
          (st.timers.filter (fun tr => tr.deadline ≤ t)) st
          (fun tr htr hcid => hall tr (List.mem_filter.mp htr).1 hcid) hus
          (List.mem_filter.mpr ⟨hmem, by simpa using ht⟩)
        rw [settleOf_congr (fireDue t st)
          ((st.timers.filter (fun tr => tr.deadline ≤ t)).foldl fireTimer st) cid
          (fireDue_settled t st)]
        exact hfold
      cases k with
      | startRun c T =>
        rw [stepEv_startRun]
        exact (settleOf_congr _ (fireDue t st) cid rfl).trans hdue
      | reply m =>
        rw [stepEv_reply]
        unfold deliver
        exact foldl_deliverOne_settleOf_some t m cid _ _ _ hdue
    · -- before the deadline: the event is quiet and the call stays pending
      right
      have ht' : t < tdl := Nat.not_le.mp ht
      obtain ⟨hqr, hqs⟩ := hq ht'
      have hdueU : isSettled (fireDue t st) cid = false := by
        have hd : ∀ tr ∈ st.timers.filter (fun tr => tr.deadline ≤ t), tr.cid ≠ cid := by
          intro tr htr hcid
          have h1 := List.mem_filter.mp htr
          have h2 := hall tr h1.1 hcid
          rw [h2] at h1
          exact ht (by simpa using h1.2)
        rw [isSettled_congr (fireDue t st)
          ((st.timers.filter (fun tr => tr.deadline ≤ t)).foldl fireTimer st) cid
          (fireDue_settled t st)]
        exact foldl_fireTimer_none cid _ st hd hus
      have hdueM : (⟨tdl, cid, tout⟩ : PendTimer) ∈ (fireDue t st).timers := by
        rw [fireDue_timers]
        exact List.mem_filter.mpr ⟨hmem, by simpa using ht⟩
      have hdueA : ∀ tr ∈ (fireDue t st).timers, tr.cid = cid → tr = ⟨tdl, cid, tout⟩ := by
        rw [fireDue_timers]
        intro tr htr hcid
        exact hall tr (List.mem_filter.mp htr).1 hcid
      cases k with
      | startRun c T =>
        have hcne : c ≠ cid := fun he => hqs T (by rw [he])
        rw [stepEv_startRun]
        refine ⟨?_, ?_, ?_⟩
        · exact (isSettled_congr _ (fireDue t st) cid rfl).trans hdueU
        · exact List.mem_append_left _ hdueM
        · intro tr htr hcid
          rcases List.mem_append.mp htr with htr | htr
          · exact hdueA tr htr hcid
          · rw [List.mem_singleton.mp htr] at hcid
            exact absurd hcid hcne
      | reply m =>
        have hm : m = WMsg.otherMsg := hqr m rfl
        rw [stepEv_reply, hm]
        unfold deliver
        rw [foldl_deliverOne_otherMsg]
        exact ⟨hdueU, hdueM, hdueA⟩

/-- The timeout invariant is preserved by any quiet-before-the-deadline
suffix of the timeline. -/
theorem chanInv_foldl (cid tdl tout : Nat) :
    ∀ (l : List TEv) (st : ChanState),
      (∀ e ∈ l, e.time < tdl →
        (∀ m, e.kind = TEvKind.reply m → m = WMsg.otherMsg) ∧
        (∀ T', e.kind ≠ TEvKind.startRun cid T')) →
      (settleOf st cid = some ⟨cid, tdl, Except.error (timeoutMsg tout)⟩ ∨
        (isSettled st cid = false ∧ (⟨tdl, cid, tout⟩ : PendTimer) ∈ st.timers ∧
          ∀ tr ∈ st.timers, tr.cid = cid → tr = ⟨tdl, cid, tout⟩)) →
      settleOf (l.foldl stepEv st) cid = some ⟨cid, tdl, Except.error (timeoutMsg tout)⟩ ∨
        (isSettled (l.foldl stepEv st) cid = false ∧
          (⟨tdl, cid, tout⟩ : PendTimer) ∈ (l.foldl stepEv st).timers ∧
          ∀ tr ∈ (l.foldl stepEv st).timers, tr.cid = cid → tr = ⟨tdl, cid, tout⟩)
  | [], _, _, h => h
  | e :: l, st, hq, h =>
    chanInv_foldl cid tdl tout l (stepEv st e)
      (fun x hx => hq x (List.mem_cons_of_mem e hx))
      (chanInv_step cid tdl tout e (hq e (List.mem_cons_self e l)) st h)

/-- At the end of the timeline every remaining timer fires: under the
timeout invariant the call ends settled with its timeout record. -/
theorem fireAll_inv (cid tdl tout : Nat) (st : ChanState)
    (h : settleOf st cid = some ⟨cid, tdl, Except.error (timeoutMsg tout)⟩ ∨
      (isSettled st cid = false ∧ (⟨tdl, cid, tout⟩ : PendTimer) ∈ st.timers ∧
        ∀ tr ∈ st.timers, tr.cid = cid → tr = ⟨tdl, cid, tout⟩)) :
    settleOf (fireAll st) cid = some ⟨cid, tdl, Except.error (timeoutMsg tout)⟩ := by
  unfold fireAll
  rcases h with h | ⟨hus, hmem, hall⟩
  · refine foldl_fireTimer_settleOf_some cid _ _ _ ?_
    rw [settleOf_congr { st with timers := [] } st cid rfl]
    exact h
  · refine foldl_fireTimer_mem cid tdl tout st.timers _ hall ?_ hmem
    rw [isSettled_congr { st with timers := [] } st cid rfl]
    exact hus

/-- C2 (amended): a run request posted at `t0` with timeout `T` against a
channel that, before the deadline `t0 + T`, neither receives a settling
reply nor starts a second run with the same call id, rejects with the
timeout error stamped at the deadline; but a late reply is *not*
discarded — on the stale timeline the reply at t=150 resolves call 2,
which was issued only after call 1's timeout fired. -/
theorem claim2_timeout_amended
    (pre post : List TEv) (cid t0 T : Nat)
    (hs0settled : isSettled (pre.foldl stepEv {}) cid = false)
    (hs0timers : ∀ tr ∈ (pre.foldl stepEv {}).timers, tr.cid ≠ cid)
    (hquiet : ∀ e ∈ post, e.time < t0 + T →
      (∀ m, e.kind = TEvKind.reply m → m = WMsg.otherMsg) ∧
      (∀ T', e.kind ≠ TEvKind.startRun cid T')) :
    settleOf (runChannel (pre ++ ⟨t0, TEvKind.startRun cid T⟩ :: post)) cid =
      some ⟨cid, t0 + T, Except.error (timeoutMsg T)⟩ ∧
    settleOf (runChannel staleTimeline) 2 =
      some ⟨2, 150, Except.ok ⟨"stale", "", 5, true, none⟩⟩ := by
  constructor
  · unfold runChannel
    rw [List.foldl_append, List.foldl_cons]
    apply fireAll_inv cid (t0 + T) T
    apply chanInv_foldl cid (t0 + T) T post _ hquiet
    right
    rw [stepEv_startRun]
    have hfdU : isSettled (fireDue t0 (pre.foldl stepEv {})) cid = false := by
      have hd : ∀ tr ∈ (pre.foldl stepEv {}).timers.filter (fun tr => tr.deadline ≤ t0),
          tr.cid ≠ cid :=
        fun tr htr => hs0timers tr (List.mem_filter.mp htr).1
      exact (isSettled_congr _ _ cid (fireDue_settled t0 _)).trans
        (foldl_fireTimer_none cid _ _ hd hs0settled)
    have hfdT : ∀ tr ∈ (fireDue t0 (pre.foldl stepEv {})).timers, tr.cid ≠ cid := by
      rw [fireDue_timers]
      exact fun tr htr => hs0timers tr (List.mem_filter.mp htr).1
    refine ⟨?_, ?_, ?_⟩
    · exact (isSettled_congr _ (fireDue t0 (pre.foldl stepEv {})) cid rfl).trans hfdU
    · exact List.mem_append_right _ (List.mem_singleton.mpr rfl)
    · intro tr htr hcid
      rcases List.mem_append.mp htr with htr | htr
      · exact absurd hcid (hfdT tr htr)
      · exact List.mem_singleton.mp htr
  · rfl

/-- Concrete run of C2's amended statement: the empty-prefix, empty-suffix
timeline (one run at t=0 with a 100 ms timeout, never answered) rejects at
t=100 with the timeout message, and on the stale timeline the late reply
resolves the second call. -/
theorem claim2_witness :
    isSettled (List.foldl stepEv {} ([] : List TEv)) 1 = false ∧
    settleOf (runChannel ([] ++ (⟨0, TEvKind.startRun 1 100⟩ : TEv) :: [])) 1 =
      some ⟨1, 100, Except.error (timeoutMsg 100)⟩ ∧
    settleOf (runChannel staleTimeline) 2 =
      some ⟨2, 150, Except.ok ⟨"stale", "", 5, true, none⟩⟩ := by
  have h := claim2_timeout_amended [] [] 1 0 100 rfl (by simp) (by simp)
  exact ⟨rfl, h.1, h.2⟩
